import Mathlib

/-!
Verification of the `tfo_sensitivity` repository against its natural-language
specification.  The Python sources are shallowly embedded below: floating-point
numbers are modelled as rationals, pandas tables and Series as lists,
Python dictionaries as association lists with first-match lookup, and fallible
code returns `Except`.  The externally supplied transcendental functions
(`np.exp`, `np.log`, `np.log10`) and the external absorption-model collaborators
(`get_mu_a`, `get_tissue_mu_a`) together with the detector-geometry constants
are opaque to this repository, so they are gathered in a parameter record
`Externals`; every definition takes it as an explicit argument.
-/

set_option linter.unusedVariables false

attribute [local semireducible] Rat.add Rat.mul Rat.inv Rat.sub

/-- Opaque external collaborators of the library (see spec section 6):
the platform exponential/logarithm used by numpy, the absorption models
`get_mu_a` and `get_tissue_mu_a`, and the detector geometry constants
`EQUIDISTANCE_DETECTOR_COUNT` / `EQUIDISTANCE_DETECTOR_PHOTON_COUNT`. -/
structure Externals where
  pexp : ℚ → ℚ
  plog : ℚ → ℚ
  plog10 : ℚ → ℚ
  getMuA : ℚ → ℚ → ℕ → ℚ
  getTissueMuA : ℚ → ℚ → ℚ → ℕ → ℚ → ℚ → ℚ
  detCount : ℕ → ℚ
  photonCount : ℚ

/-- Error kinds raised by the embedded code.  `shapeMismatch` is the failed
assert in `generate_intensity_column`, `indexError` a Python IndexError,
`attributeError` a Python AttributeError, `typeError` a Python TypeError,
`incompatibleDistributions` the ValueError raised by `ToF._operate`,
`valueError` the numpy "zero-size array to reduction" ValueError, and
`notImplementedError` Python's NotImplementedError. -/
inductive Err where
  | shapeMismatch
  | indexError
  | attributeError
  | typeError
  | incompatibleDistributions
  | valueError
  | notImplementedError
deriving DecidableEq, Repr

instance {ε α : Type} [DecidableEq ε] [DecidableEq α] : DecidableEq (Except ε α) := fun a b =>
  match a, b with
  | .ok x, .ok y =>
    if h : x = y then .isTrue (congrArg Except.ok h)
    else .isFalse (fun he => h (Except.ok.inj he))
  | .error x, .error y =>
    if h : x = y then .isTrue (congrArg Except.error h)
    else .isFalse (fun he => h (Except.error.inj he))
  | .ok _, .error _ => .isFalse (fun he => Except.noConfusion he)
  | .error _, .ok _ => .isFalse (fun he => Except.noConfusion he)

/-- One row of a RAW photon table: the per-layer partial path lengths
(the `L{n} ppath` columns, in millimetres, in layer order) and the
source-detector distance tag (the `SDD` column). -/
structure PhotonRow where
  sdd : ℚ
  paths : List ℚ
deriving DecidableEq, Repr

/-- A RAW photon table: the number of `L{n} ppath` columns and the rows.
(pandas tables are rectangular; rectangularity is a hypothesis where needed.) -/
structure PhotonTable where
  layers : ℕ
  rows : List PhotonRow
deriving DecidableEq, Repr

/-- A Python dict from layer number to absorption coefficient. -/
abbrev MuMap := List (ℕ × ℚ)

/-- Python dict lookup (keys of a dict are unique, so first match). -/
def dictGet : MuMap → ℕ → Option ℚ
  | [], _ => none
  | (k', v') :: rest, k => if k' = k then some v' else dictGet rest k

/-- Python dict assignment `d[k] = v`: update the existing entry in place,
or append a fresh entry at the end (insertion order semantics). -/
def dictSet : MuMap → ℕ → ℚ → MuMap
  | [], k, v => [(k, v)]
  | (k', v') :: rest, k, v =>
    if k' = k then (k, v) :: rest else (k', v') :: dictSet rest k v

/-- Stable insertion used to model Python `sorted(mu_map.items())`. -/
def insertSortedByKey (p : ℕ × ℚ) : MuMap → MuMap
  | [] => [p]
  | q :: rest => if p.1 < q.1 then p :: q :: rest else q :: insertSortedByKey p rest

/-- Python `sorted(mu_map.items())` (ascending by key). -/
def sortByKey (l : MuMap) : MuMap := l.foldr insertSortedByKey []

/-- Translation of a Python column index `layer_number - 1` against `L`
columns: layer `0` wraps to the last column (Python index `-1`), a layer
beyond the column count is an IndexError (`none`). -/
def pyColIdx (L k : ℕ) : Option ℕ :=
  if k = 0 then (if L = 0 then none else some (L - 1))
  else if k - 1 < L then some (k - 1) else none

/-- One step of the loop in `generate_intensity_column`:
`intensity[:, layer_number - 1] = np.exp(-mu * intensity[:, layer_number - 1])`
restricted to a single row. -/
def applyMu (E : Externals) (L : ℕ) (vec : List ℚ) (p : ℕ × ℚ) : Except Err (List ℚ) :=
  match pyColIdx L p.1 with
  | none => .error .indexError
  | some i => .ok (vec.set i (E.pexp (-(p.2 * vec.getD i 0))))

/-- Per-photon intensity: exponentiate each layer column named in the map,
then take the product across all path columns of the row. -/
def intensityRow (E : Externals) (L : ℕ) (entries : MuMap) (paths : List ℚ) : Except Err ℚ := do
  let v ← entries.foldlM (applyMu E L) paths
  pure v.prod

/-- Embedding of `generate_intensity_column` from
`tfo_sensitivity/calculate_intensity/photon_manipulation.py`: assert that the
absorption map has as many entries as there are path columns (ShapeMismatch
otherwise), sort the map by key, Beer-Lambert attenuate each named column and
take per-row products; normalize by the detector geometry constants when a
detector index is supplied. -/
def generate_intensity_column (E : Externals) (tbl : PhotonTable) (muMap : MuMap)
    (sddIdx : Option ℕ) : Except Err (List ℚ) := do
  if muMap.length = tbl.layers then
    let sorted := sortByKey muMap
    let col ← tbl.rows.mapM (fun r => intensityRow E tbl.layers sorted r.paths)
    match sddIdx with
    | none => pure col
    | some i => pure (col.map (fun q => q / E.detCount i / E.photonCount))
  else .error .shapeMismatch

/-- Embedding of `generate_intensity`: the sum of the intensity column. -/
def generate_intensity (E : Externals) (tbl : PhotonTable) (muMap : MuMap)
    (sddIdx : Option ℕ) : Except Err ℚ := do
  let col ← generate_intensity_column E tbl muMap sddIdx
  pure col.sum

/-! ## ToF engine (`tfo_sensitivity/tof/base.py`) -/

/-- `SPEED_OF_LIGHT = 3e8 / 1.4` (m/s, refractive-index adjusted). -/
def SPEED_OF_LIGHT : ℚ := 3 * 10 ^ 8 / (7 / 5)

/-- A pandas Series with integer index: list of (bin index, value) pairs. -/
abbrev Series := List (ℤ × ℚ)

/-- Series label lookup (first match). -/
def sLookup : Series → ℤ → Option ℚ
  | [], _ => none
  | p :: rest, i => if p.1 = i then some p.2 else sLookup rest i

/-- Series label lookup with a default. -/
def sGetD (s : Series) (i : ℤ) (d : ℚ) : ℚ := (sLookup s i).getD d

/-- Ordered insertion used to model `groupby(..., sort=True)[...].sum()`:
add the value into the entry of the bin, keeping bins sorted ascending. -/
def insertAdd (b : ℤ) (v : ℚ) : Series → Series
  | [] => [(b, v)]
  | (k, w) :: rest =>
    if b = k then (k, w + v) :: rest
    else if b < k then (b, v) :: (k, w) :: rest
    else (k, w) :: insertAdd b v rest

/-- Sum of intensities grouped by quantized ToF bin, index sorted ascending
(the result of `temp_data.groupby("ToF_quantized", sort=True)["Intensity"].sum()`). -/
def aggregateBins (l : List (ℤ × ℚ)) : Series :=
  l.foldl (fun acc p => insertAdd p.1 p.2 acc) []

/-- Last valid entry strictly below bin `b` (interpolation neighbour). -/
def prevEntry (s : Series) (b : ℤ) : Option (ℤ × ℚ) :=
  (s.filter (fun p => p.1 < b)).getLast?

/-- First valid entry strictly above bin `b` (interpolation neighbour). -/
def nextEntry (s : Series) (b : ℤ) : Option (ℤ × ℚ) :=
  (s.filter (fun p => b < p.1)).head?

/-- The log-domain linearly interpolated intensity for a missing bin `b`
(`np.log`, `interpolate(method="linear", limit_direction="both")`, `np.exp`):
between two known bins the log-values are interpolated linearly; a missing
neighbour on one side degenerates to the other side's value.  (After the
cutoff filter the extreme bins are always known, so the one-sided cases only
matter as the pandas boundary fill.) -/
def interpValue (E : Externals) (s : Series) (b : ℤ) : ℚ :=
  match prevEntry s b, nextEntry s b with
  | some p, some q =>
      E.pexp ((E.plog p.2 * ((q.1 : ℚ) - (b : ℚ)) + E.plog q.2 * ((b : ℚ) - (p.1 : ℚ)))
        / ((q.1 : ℚ) - (p.1 : ℚ)))
  | some p, none => p.2
  | none, some q => q.2
  | none, none => 0

/-- Embedding of `ToF._fill_data_gaps`: when the series has fewer entries than
the full contiguous range `[lower, upper]`, reindex over that range, fill
missing bins by log-linear interpolation, and report that interpolation was
needed; otherwise leave the series untouched. -/
def fill_data_gaps (E : Externals) (s : Series) (lower upper : ℤ) : Series × Bool :=
  let expected := upper - lower + 1
  if (s.length : ℤ) < expected then
    (((List.range expected.toNat).map (fun i : ℕ => lower + (i : ℤ))).map
      (fun b =>
        (b, match sLookup s b with
            | some v => v
            | none => interpValue E s b)), true)
  else (s, false)

/-- The raw aggregation of `ToF.__init__` before gap filling: per-photon
intensity, per-photon ToF from the summed per-layer paths (mm converted to m)
divided by `SPEED_OF_LIGHT`, quantization by `floor(tof / time_resolution)`,
group-sum per bin, and removal of bins at or below the intensity cutoff. -/
def rawKeptBins (E : Externals) (tbl : PhotonTable) (tr : ℚ) (muMap : MuMap)
    (sddIdx : Option ℕ) (lowerIntensityBound : ℚ) : Except Err Series := do
  let intens ← generate_intensity_column E tbl muMap sddIdx
  let tofs := tbl.rows.map (fun r => r.paths.sum * (1 / 1000) / SPEED_OF_LIGHT)
  let bins := tofs.map (fun t => Int.floor (t / tr))
  let agg := aggregateBins (bins.zip intens)
  pure (agg.filter (fun q => lowerIntensityBound < q.2))

/-- Intensity vs time-of-flight distribution.  The parallel
`photon_count_per_bin` series of the source is maintained bin-for-bin exactly
like `data` and is read by no operation of the library, so it is not modelled. -/
structure ToF where
  time_resolution : ℚ
  data : Series
  interpolation_needed : Bool
  lower_bin_index : ℤ
  upper_bin_index : ℤ
deriving DecidableEq, Repr

/-- Embedding of `ToF.__init__` from raw photon data.  `data.index.values.min()`
on an empty index is numpy's zero-size reduction ValueError; on the nonempty
sorted aggregation the min is the head and the max the last entry. -/
def ToF.init (E : Externals) (tbl : PhotonTable) (tr : ℚ) (muMap : MuMap)
    (sddIdx : Option ℕ) (lowerIntensityBound : ℚ) : Except Err ToF := do
  let kept ← rawKeptBins E tbl tr muMap sddIdx lowerIntensityBound
  match kept with
  | [] => .error .valueError
  | p :: rest =>
    let lower := p.1
    let upper := ((p :: rest).getLast (List.cons_ne_nil p rest)).1
    let filled := fill_data_gaps E (p :: rest) lower upper
    pure { time_resolution := tr, data := filled.1, interpolation_needed := filled.2,
           lower_bin_index := lower, upper_bin_index := upper }

/-- Minimum of a list of bin indices (`index.values.min()`), with a default
for the empty case that callers rule out. -/
def listMinD (l : List ℤ) (d : ℤ) : ℤ :=
  match l with
  | [] => d
  | x :: xs => xs.foldl min x

/-- Maximum of a list of bin indices (`index.values.max()`). -/
def listMaxD (l : List ℤ) (d : ℤ) : ℤ :=
  match l with
  | [] => d
  | x :: xs => xs.foldl max x

/-- The dummy one-column table that `ToF.from_data` feeds through the real
constructor: per series entry, `SDD = 1.0` and
`L1 ppath = -log(value) * time_resolution`. -/
def dummyTable (E : Externals) (s : Series) (tr : ℚ) : PhotonTable :=
  { layers := 1, rows := s.map (fun p => { sdd := 1, paths := [-E.plog p.2 * tr] }) }

/-- Embedding of `ToF.from_data`: run the real constructor over the dummy
one-column table with absorption map `{1: 1}` (so each per-photon intensity is
`exp(log(value) * time_resolution)`, i.e. `value ^ time_resolution`; bins at or
below the intensity cutoff are dropped there, and when every bin is dropped -
or the series is empty - the constructor's min-of-empty ValueError
propagates), then overwrite `data` and the index bounds with the given
series.  The constructor already stored the same `time_resolution`, and the
interpolation flag keeps whatever the dummy pass computed. -/
def ToF.from_data (E : Externals) (s : Series) (tr : ℚ) : Except Err ToF := do
  let new_tof ← ToF.init E (dummyTable E s tr) tr [(1, 1)] none (1 / 10 ^ 30)
  pure { new_tof with
         data := s
         lower_bin_index := listMinD (s.map Prod.fst) 0
         upper_bin_index := listMaxD (s.map Prod.fst) 0 }

/-- Embedding of `ToF.check_operation_compatibility`: equal time resolution
and overlapping bin ranges. -/
def ToF.check_operation_compatibility (t1 t2 : ToF) : Bool :=
  if t1.time_resolution ≠ t2.time_resolution then false
  else if t1.lower_bin_index > t2.upper_bin_index then false
  else if t1.upper_bin_index < t2.lower_bin_index then false
  else true

/-- `self.data.index.intersection(other.data.index)`: the bins of `t1` (in
order) that also occur in `t2`. -/
def commonBins (t1 t2 : ToF) : List ℤ :=
  (t1.data.map Prod.fst).filter (fun i => decide (i ∈ t2.data.map Prod.fst))

/-- Embedding of `ToF._operate` for a distribution operand: check
compatibility, restrict both series to the common bins, apply the operation
element-wise and wrap the result through `ToF.from_data`. -/
def ToF.operate (E : Externals) (t1 t2 : ToF) (f : ℚ → ℚ → ℚ) : Except Err ToF :=
  if t1.check_operation_compatibility t2 then
    let common := commonBins t1 t2
    let newData := common.map (fun i => (i, f (sGetD t1.data i 0) (sGetD t2.data i 0)))
    ToF.from_data E newData t1.time_resolution
  else .error .incompatibleDistributions

/-- State-passing form of `ToF._operate`: the first component holds the
post-call states of `self` and `other` (the source never assigns to a field of
either operand; every pandas operation involved allocates a new object). -/
def ToF.operateSt (E : Externals) (t1 t2 : ToF) (f : ℚ → ℚ → ℚ) :
    (ToF × ToF) × Except Err ToF :=
  ((t1, t2), ToF.operate E t1 t2 f)

/-- `ToF.__truediv__`. -/
def ToF.truediv (E : Externals) (t1 t2 : ToF) : Except Err ToF :=
  ToF.operate E t1 t2 (fun x y => x / y)

/-- `ToF.__mul__`. -/
def ToF.mulOp (E : Externals) (t1 t2 : ToF) : Except Err ToF :=
  ToF.operate E t1 t2 (fun x y => x * y)

/-- `ToF.__add__`. -/
def ToF.addOp (E : Externals) (t1 t2 : ToF) : Except Err ToF :=
  ToF.operate E t1 t2 (fun x y => x + y)

/-- `ToF.__sub__`. -/
def ToF.subOp (E : Externals) (t1 t2 : ToF) : Except Err ToF :=
  ToF.operate E t1 t2 (fun x y => x - y)

/-! ## Jacobian engine (`tfo_sensitivity/jacobian/`) -/

/-- `DxTypes = Literal["MC", "MS", "FC", "FS"]`. -/
inductive Dx where
  | MC
  | MS
  | FC
  | FS
deriving DecidableEq, Repr

/-- The test `"M" in dx`. -/
def Dx.isMaternal : Dx → Bool
  | .MC => true
  | .MS => true
  | .FC => false
  | .FS => false

/-- The test `"C" in dx`. -/
def Dx.isConc : Dx → Bool
  | .MC => true
  | .MS => false
  | .FC => true
  | .FS => false

/-- `OperatingPoint` dataclass. -/
structure OperatingPoint where
  maternal_hb : ℚ
  maternal_sat : ℚ
  fetal_hb : ℚ
  fetal_sat : ℚ
  wave_int : ℕ
deriving DecidableEq, Repr

/-- Embedding of `FullBloodJacobianMuAEqn.derivative_mu_map_gen`
(`tfo_sensitivity/jacobian/mu_a_equations.py`): copy the base map, overwrite
layers 1 and 4 from the operating point, then perturb the affected layer's
quantity by plus and minus delta.  The first component of the result is the
post-call state of the caller's `base_mu_map` argument (only copies are ever
assigned to, so it is returned unchanged). -/
def FullBlood_derivative_mu_map_gen (E : Externals) (base : MuMap)
    (msat mhb fsat fhb : ℚ) (w : ℕ) (dx : Dx) (δ : ℚ) :
    MuMap × (MuMap × MuMap × MuMap) :=
  let m0 := dictSet (dictSet base 1 (E.getMuA msat mhb w)) 4 (E.getMuA fsat fhb w)
  let layer := if dx.isMaternal then 1 else 4
  let asat := if dx.isMaternal then msat else fsat
  let ahb := if dx.isMaternal then mhb else fhb
  let maps :=
    if dx.isConc then
      (dictSet m0 layer (E.getMuA asat (ahb + δ) w),
       dictSet m0 layer (E.getMuA asat (ahb - δ) w))
    else
      (dictSet m0 layer (E.getMuA (asat + δ) ahb w),
       dictSet m0 layer (E.getMuA (asat - δ) ahb w))
  (base, (m0, maps.1, maps.2))

/-- The six constructor parameters of `PartialBloodJacobianMuAEqn`. -/
structure PartialBloodParams where
  maternal_blood_volume_fraction : ℚ
  maternal_arterial_fraction : ℚ
  maternal_venous_saturation_reduction_factor : ℚ
  fetal_blood_volume_fraction : ℚ
  fetal_arterial_fraction : ℚ
  fetal_venous_saturation_reduction_factor : ℚ
deriving DecidableEq, Repr

/-- Embedding of `PartialBloodJacobianMuAEqn.derivative_mu_map_gen`: like the
full-blood variant but layer coefficients come from `get_tissue_mu_a` with the
stored blood-volume/arterial/venous parameters.  First component of the result:
post-call state of the caller's `base_mu_map` (returned unchanged, as only
copies are assigned to). -/
def PartialBlood_derivative_mu_map_gen (E : Externals) (ps : PartialBloodParams)
    (base : MuMap) (msat mhb fsat fhb : ℚ) (w : ℕ) (dx : Dx) (δ : ℚ) :
    MuMap × (MuMap × MuMap × MuMap) :=
  let m0 := dictSet
    (dictSet base 1 (E.getTissueMuA ps.maternal_blood_volume_fraction mhb msat w
      ps.maternal_arterial_fraction ps.maternal_venous_saturation_reduction_factor))
    4 (E.getTissueMuA ps.fetal_blood_volume_fraction fhb fsat w
      ps.fetal_arterial_fraction ps.fetal_venous_saturation_reduction_factor)
  let layer := if dx.isMaternal then 1 else 4
  let asat := if dx.isMaternal then msat else fsat
  let abvf := if dx.isMaternal then ps.maternal_blood_volume_fraction
              else ps.fetal_blood_volume_fraction
  let aavf := if dx.isMaternal then ps.maternal_arterial_fraction
              else ps.fetal_arterial_fraction
  let avsrf := if dx.isMaternal then ps.maternal_venous_saturation_reduction_factor
               else ps.fetal_venous_saturation_reduction_factor
  let ahb := if dx.isMaternal then mhb else fhb
  let maps :=
    if dx.isConc then
      (dictSet m0 layer (E.getTissueMuA abvf (ahb + δ) asat w aavf avsrf),
       dictSet m0 layer (E.getTissueMuA abvf (ahb - δ) asat w aavf avsrf))
    else
      (dictSet m0 layer (E.getTissueMuA abvf ahb (asat + δ) w aavf avsrf),
       dictSet m0 layer (E.getTissueMuA abvf ahb (asat - δ) w aavf avsrf))
  (base, (m0, maps.1, maps.2))

/-- The pluggable mu-equation object (`JacobianMuAEqn` subclasses). -/
inductive MuAEqn where
  | fullBlood
  | partialBlood (ps : PartialBloodParams)
deriving DecidableEq, Repr

/-- Dispatch of `derivative_mu_map_gen` on the mu-equation object. -/
def MuAEqn.derivative_mu_map_gen (E : Externals) (eqn : MuAEqn) (base : MuMap)
    (msat mhb fsat fhb : ℚ) (w : ℕ) (dx : Dx) (δ : ℚ) :
    MuMap × (MuMap × MuMap × MuMap) :=
  match eqn with
  | .fullBlood => FullBlood_derivative_mu_map_gen E base msat mhb fsat fhb w dx δ
  | .partialBlood ps => PartialBlood_derivative_mu_map_gen E ps base msat mhb fsat fhb w dx δ

/-- State of a `NumericalJacobianCalculator`
(`tfo_sensitivity/jacobian/numerical_formulae.py`).  The extracted
operating-point fields and the three mu maps computed at construction are
stored as mutable attributes; the `operating_point` attribute kept by the
abstract base class is read by no method and not modelled. -/
structure NumericalJC where
  filtered_photon_data : PhotonTable
  sdd_index : Option ℕ
  base_mu_map : MuMap
  dx : Dx
  delta : ℚ
  maternal_hb : ℚ
  maternal_sat : ℚ
  fetal_hb : ℚ
  fetal_sat : ℚ
  wave_int : ℕ
  mu_a_eqn : MuAEqn
  mu_map : MuMap
  mu_map1 : MuMap
  mu_map2 : MuMap
deriving DecidableEq, Repr

/-- Embedding of `NumericalJacobianCalculator.__init__` (the well-typed path,
with the mu-equation already resolved): extract the operating point into
fields and generate the three derivative mu maps once. -/
def mkNumericalJC (E : Externals) (tbl : PhotonTable) (op : OperatingPoint)
    (sddIdx : Option ℕ) (base : MuMap) (dx : Dx) (eqn : MuAEqn) (δ : ℚ) : NumericalJC :=
  let gen := MuAEqn.derivative_mu_map_gen E eqn base op.maternal_sat op.maternal_hb
    op.fetal_sat op.fetal_hb op.wave_int dx δ
  { filtered_photon_data := tbl, sdd_index := sddIdx, base_mu_map := base, dx := dx,
    delta := δ, maternal_hb := op.maternal_hb, maternal_sat := op.maternal_sat,
    fetal_hb := op.fetal_hb, fetal_sat := op.fetal_sat, wave_int := op.wave_int,
    mu_a_eqn := eqn, mu_map := gen.2.1, mu_map1 := gen.2.2.1, mu_map2 := gen.2.2.2 }

/-- `derivative_mapping = {"regular": ..., "norm_der": ..., "log": ...}`. -/
inductive DerivativeFormat where
  | regular
  | norm_der
  | log
deriving DecidableEq, Repr

/-- The `calculate_jacobian` methods of `RegularDerivative`,
`NormalizedDerivative` and `LogDerivative`: finite differences over the three
mu maps stored at construction time (the operating-point fields are not read
here). -/
def NumericalJC.calculate_jacobian (E : Externals) (fmt : DerivativeFormat)
    (c : NumericalJC) : Except Err ℚ := do
  match fmt with
  | .regular => do
    let I1 ← generate_intensity E c.filtered_photon_data c.mu_map1 c.sdd_index
    let I2 ← generate_intensity E c.filtered_photon_data c.mu_map2 c.sdd_index
    pure ((I1 - I2) / (2 * c.delta))
  | .norm_der => do
    let I1 ← generate_intensity E c.filtered_photon_data c.mu_map1 c.sdd_index
    let I2 ← generate_intensity E c.filtered_photon_data c.mu_map2 c.sdd_index
    let I0 ← generate_intensity E c.filtered_photon_data c.mu_map c.sdd_index
    pure ((I1 - I2) / I0 / (2 * c.delta))
  | .log => do
    let I1 ← generate_intensity E c.filtered_photon_data c.mu_map1 c.sdd_index
    let I2 ← generate_intensity E c.filtered_photon_data c.mu_map2 c.sdd_index
    pure ((E.plog10 I1 - E.plog10 I2) / (2 * c.delta))

/-- External mutation of the five operating-point fields of a reused
numerical calculator instance (`jc.maternal_hb = ...` and so on). -/
def NumericalJC.setOperatingPointFields (c : NumericalJC)
    (mhb msat fhb fsat : ℚ) (w : ℕ) : NumericalJC :=
  { c with maternal_hb := mhb, maternal_sat := msat, fetal_hb := fhb,
           fetal_sat := fsat, wave_int := w }

/-- State of a `FullBloodAnalyticalJC`
(`tfo_sensitivity/jacobian/analytical_formulae.py`): operating-point fields
plus the cached `mu_map` and extinction coefficients, both recomputed in-place
at the start of every `calculate_jacobian` call. -/
structure AnalyticalJC where
  filtered_photon_data : PhotonTable
  sdd_index : Option ℕ
  base_mu_map : MuMap
  dx : Dx
  maternal_hb : ℚ
  maternal_sat : ℚ
  fetal_hb : ℚ
  fetal_sat : ℚ
  wave_int : ℕ
  mu_a_eqn : MuAEqn
  normalize_derivative : Bool
  mu_map : MuMap
  eps : ℚ
  eps_hbo : ℚ
  eps_hhb : ℚ
deriving DecidableEq, Repr

/-- `AnalyticalJacobianCalculator._modify_mu_map`: take the first map of
`derivative_mu_map_gen` at the current field values (delta fixed at 0.001,
unused in the first map) and store it in `mu_map`. -/
def AnalyticalJC.modify_mu_map (E : Externals) (a : AnalyticalJC) : AnalyticalJC :=
  { a with mu_map := (MuAEqn.derivative_mu_map_gen E a.mu_a_eqn a.base_mu_map
      a.maternal_sat a.maternal_hb a.fetal_sat a.fetal_hb a.wave_int a.dx (1 / 1000)).2.1 }

/-- `AnalyticalJacobianCalculator._calculate_eps`: extinction coefficients at
the operating point's fetal saturation and at saturation 1 and 0
(`(eps, eps_hbo, eps_hhb)`). -/
def AnalyticalJC.calculate_eps (E : Externals) (a : AnalyticalJC) : ℚ × ℚ × ℚ :=
  (E.getMuA a.fetal_sat 1 a.wave_int, E.getMuA 1 1 a.wave_int, E.getMuA 0 1 a.wave_int)

/-- Embedding of `AnalyticalJacobianCalculator.__init__` (with the mu-equation
already resolved): store the fields and run the two initiation functions. -/
def mkAnalyticalJC (E : Externals) (tbl : PhotonTable) (sddIdx : Option ℕ) (base : MuMap)
    (dx : Dx) (mhb msat fhb fsat : ℚ) (w : ℕ) (eqn : MuAEqn) (normalize : Bool) :
    AnalyticalJC :=
  let a : AnalyticalJC :=
    { filtered_photon_data := tbl, sdd_index := sddIdx, base_mu_map := base, dx := dx,
      maternal_hb := mhb, maternal_sat := msat, fetal_hb := fhb, fetal_sat := fsat,
      wave_int := w, mu_a_eqn := eqn, normalize_derivative := normalize,
      mu_map := base, eps := 0, eps_hbo := 0, eps_hhb := 0 }
  let a1 := a.modify_mu_map E
  let e := a1.calculate_eps E
  { a1 with eps := e.1, eps_hbo := e.2.1, eps_hhb := e.2.2 }

/-- Dot product of the `L4 ppath` column with the intensity column. -/
def dotQ (l1 l2 : List ℚ) : ℚ := (List.zipWith (fun x y => x * y) l1 l2).sum

/-- `FullBloodAnalyticalJC._fetal_conc_derivative`:
`-eps * dot(L4_ppath, intensity)`, normalized by the summed intensity when
requested.  The `L4 ppath` column is the fourth path column. -/
def AnalyticalJC.fetal_conc_derivative (E : Externals) (a : AnalyticalJC) : Except Err ℚ := do
  let col ← generate_intensity_column E a.filtered_photon_data a.mu_map a.sdd_index
  let p4 := a.filtered_photon_data.rows.map (fun r => r.paths.getD 3 0)
  let term := -a.eps * dotQ p4 col
  pure (if a.normalize_derivative then term / col.sum else term)

/-- `FullBloodAnalyticalJC._fetal_sat_derivative`:
`-(eps_hbo - eps_hhb) * fetal_hb * dot(L4_ppath, intensity)`, optionally
normalized. -/
def AnalyticalJC.fetal_sat_derivative (E : Externals) (a : AnalyticalJC) : Except Err ℚ := do
  let col ← generate_intensity_column E a.filtered_photon_data a.mu_map a.sdd_index
  let p4 := a.filtered_photon_data.rows.map (fun r => r.paths.getD 3 0)
  let term := -(a.eps_hbo - a.eps_hhb) * a.fetal_hb * dotQ p4 col
  pure (if a.normalize_derivative then term / col.sum else term)

/-- Embedding of `FullBloodAnalyticalJC.calculate_jacobian`: refresh `mu_map`
and the extinction coefficients from the current field values, then dispatch
on the derivative axis (axes without an entry raise NotImplementedError).
Returns the post-call object state together with the result. -/
def AnalyticalJC.calculate_jacobian (E : Externals) (a : AnalyticalJC) :
    AnalyticalJC × Except Err ℚ :=
  let a1 := a.modify_mu_map E
  let e := a1.calculate_eps E
  let a2 := { a1 with eps := e.1, eps_hbo := e.2.1, eps_hhb := e.2.2 }
  match a2.dx with
  | .FC => (a2, a2.fetal_conc_derivative E)
  | .FS => (a2, a2.fetal_sat_derivative E)
  | _ => (a2, .error .notImplementedError)

/-- External mutation of the operating-point fields of a reused analytical
calculator instance. -/
def AnalyticalJC.setOperatingPointFields (a : AnalyticalJC)
    (mhb msat fhb fsat : ℚ) (w : ℕ) : AnalyticalJC :=
  { a with maternal_hb := mhb, maternal_sat := msat, fetal_hb := fhb,
           fetal_sat := fsat, wave_int := w }

/-! ## Top-level convenience functions -/

/-- A dynamically typed Python argument value, needed to express the argument
transposition at the construction site inside `calculate_jacobian_numerical`. -/
inductive PyObj where
  | num (q : ℚ)
  | dxStr (d : Dx)
  | eqnObj (e : MuAEqn)
  | pynone
deriving DecidableEq, Repr

/-- Embedding of `NumericalJacobianCalculator.__init__` with dynamically typed
arguments, in declaration order `(..., dx, mu_a_eqn, delta)`.  The
`mu_a_eqn.derivative_mu_map_gen` attribute access raises AttributeError unless
`mu_a_eqn` is `None` (defaulted to the full-blood equation) or an equation
object; `"M" in dx` raises TypeError on a non-string. -/
def pyInitNumericalJC (E : Externals) (tbl : PhotonTable) (op : OperatingPoint)
    (sddIdx : Option ℕ) (base : MuMap) (dxArg muAEqnArg deltaArg : PyObj) :
    Except Err NumericalJC := do
  let eqn ← match muAEqnArg with
    | .pynone => pure MuAEqn.fullBlood
    | .eqnObj e => pure e
    | _ => Except.error Err.attributeError
  let dx ← match dxArg with
    | .dxStr d => pure d
    | _ => Except.error Err.typeError
  let δ ← match deltaArg with
    | .num q => pure q
    | _ => Except.error Err.typeError
  pure (mkNumericalJC E tbl op sddIdx base dx eqn δ)

/-- `photon_data["SDD"].unique()`: unique values in order of first
appearance. -/
def pyUniqueAux : List ℚ → List ℚ → List ℚ
  | [], acc => acc.reverse
  | x :: rest, acc =>
    if x ∈ acc then pyUniqueAux rest acc else pyUniqueAux rest (x :: acc)

/-- `photon_data["SDD"].unique()`. -/
def pyUnique (l : List ℚ) : List ℚ := pyUniqueAux l []

/-- `photon_data[photon_data["SDD"] == sdd]`. -/
def filterBySdd (tbl : PhotonTable) (sdd : ℚ) : PhotonTable :=
  { layers := tbl.layers, rows := tbl.rows.filter (fun r => r.sdd = sdd) }

/-- Embedding of `calculate_jacobian_numerical`
(`tfo_sensitivity/jacobian/numerical_formulae.py`): select the SDD at the
detector index from the (possibly caller-cached) unique SDD list, filter the
table, then construct the calculator.  The construction call passes its
positional arguments as `(..., base_mu_map, delta, dx)` against a constructor
declared as `(..., base_mu_map, dx, mu_a_eqn, delta)`, so `delta` arrives in
the `dx` slot and the axis string in the `mu_a_eqn` slot. -/
def calculate_jacobian_numerical (E : Externals) (fmt : DerivativeFormat)
    (photonData : PhotonTable) (sddIdx : ℕ) (base : MuMap) (δ : ℚ) (dx : Dx)
    (sddList : Option (List ℚ)) (mhb msat fhb fsat : ℚ) (w : ℕ) : Except Err ℚ := do
  let sdds := sddList.getD (pyUnique (photonData.rows.map (fun r => r.sdd)))
  if sddIdx < sdds.length then
    let sdd := sdds.getD sddIdx 0
    let filtered := filterBySdd photonData sdd
    let op : OperatingPoint :=
      { maternal_hb := mhb, maternal_sat := msat, fetal_hb := fhb,
        fetal_sat := fsat, wave_int := w }
    let jc ← pyInitNumericalJC E filtered op (some sddIdx) base
      (PyObj.num δ) (PyObj.dxStr dx) (PyObj.num (1 / 10000))
    jc.calculate_jacobian E fmt
  else .error .indexError

/-- Embedding of `calculate_jacobian` from `tfo_sensitivity/jacobian/formulae.py`.
Its `JacobianCalculator` duplicates the full-blood map generation of
`FullBloodJacobianMuAEqn.derivative_mu_map_gen` inline and its derivative
subclasses repeat the three finite-difference formulas, so the construction is
modelled by the shared constructor instantiated with the full-blood equation;
here the positional arguments line up with the constructor. -/
def Formulae.calculate_jacobian (E : Externals) (fmt : DerivativeFormat)
    (photonData : PhotonTable) (sddIdx : ℕ) (base : MuMap) (δ : ℚ) (dx : Dx)
    (sddList : Option (List ℚ)) (mhb msat fhb fsat : ℚ) (w : ℕ) : Except Err ℚ :=
  let sdds := sddList.getD (pyUnique (photonData.rows.map (fun r => r.sdd)))
  if sddIdx < sdds.length then
    let sdd := sdds.getD sddIdx 0
    let filtered := filterBySdd photonData sdd
    let op : OperatingPoint :=
      { maternal_hb := mhb, maternal_sat := msat, fetal_hb := fhb,
        fetal_sat := fsat, wave_int := w }
    let jc := mkNumericalJC E filtered op (some sddIdx) base dx MuAEqn.fullBlood δ
    jc.calculate_jacobian E fmt
  else .error .indexError

/-! ## Range optimizer (`tfo_sensitivity/tof/optimization.py`) -/

/-- `optima_type: Literal["max", "min"]`. -/
inductive OptimaType where
  | maxMode
  | minMode
deriving DecidableEq, Repr

/-- `_is_next_better`: strict improvement only (ties do not count). -/
def is_next_better (mode : OptimaType) (old new : ℚ) : Bool :=
  match mode with
  | .maxMode => new > old
  | .minMode => new < old

/-- The `while left_pointer < right_pointer` loop of
`two_pointer_discrete_optimize`.  Each iteration moves one pointer inwards by
exactly one, so the gap `(r - l).toNat` is exact fuel. -/
def twoPointerLoop (f : ℤ → ℤ → ℚ) (mode : OptimaType) :
    ℕ → ℤ → ℤ → ℚ → ℤ × ℤ × ℚ
  | 0, l, r, opt => (l, r, opt)
  | fuel + 1, l, r, opt =>
    if l < r then
      let nextLeft := f (l + 1) r
      let nextRight := f l (r - 1)
      if is_next_better mode opt nextLeft then
        twoPointerLoop f mode fuel (l + 1) r nextLeft
      else if is_next_better mode opt nextRight then
        twoPointerLoop f mode fuel l (r - 1) nextRight
      else (l, r, opt)
    else (l, r, opt)

/-- Embedding of `two_pointer_discrete_optimize`: greedy two-pointer
optimization starting from the given pointers. -/
def two_pointer_discrete_optimize (f : ℤ → ℤ → ℚ) (l r : ℤ) (mode : OptimaType) :
    ℤ × ℤ × ℚ :=
  twoPointerLoop f mode (r - l).toNat l r (f l r)

/-! ## Concrete instances used in counterexamples and witnesses -/

/-- A concrete instantiation of the external collaborators, used to evaluate
the embedding on explicit inputs (any other instantiation would do for the
universally quantified theorems). -/
def extDemo : Externals :=
  { pexp := fun x => x * x + 2, plog := fun x => x - 1, plog10 := fun x => x,
    getMuA := fun s h w => h, getTissueMuA := fun bvf h s w a v => h + s,
    detCount := fun i => 1, photonCount := 1 }

/-- The data series of the optimizer test:
`[1e-13, 4e-14, 2e-15, 4e-18, 1e-20]` on index `2..6`. -/
def dataSeries1 : Series :=
  [(2, 1 / 10 ^ 13), (3, 4 / 10 ^ 14), (4, 2 / 10 ^ 15), (5, 4 / 10 ^ 18), (6, 1 / 10 ^ 20)]

/-- The target function of the optimizer claim:
`data1.loc[left : right + 1].sum()`, a pandas label slice, inclusive of both
endpoints and clipped to the labels present. -/
def targetFuncDemo (l r : ℤ) : ℚ :=
  ((dataSeries1.filter (fun p => decide (l ≤ p.1 ∧ p.1 ≤ r + 1))).map Prod.snd).sum

/-- Concrete partial-blood parameters for evaluation. -/
def psDemo : PartialBloodParams :=
  { maternal_blood_volume_fraction := 1 / 5, maternal_arterial_fraction := 1 / 10,
    maternal_venous_saturation_reduction_factor := 3 / 4,
    fetal_blood_volume_fraction := 1 / 5, fetal_arterial_fraction := 1 / 10,
    fetal_venous_saturation_reduction_factor := 3 / 4 }

/-- A four-layer single-photon table used to evaluate the Jacobian calculators. -/
def photonTableDemo : PhotonTable :=
  { layers := 4, rows := [{ sdd := 1, paths := [1, 0, 0, 1] }] }

/-- A base absorption map for the four-layer demo table. -/
def baseMuMapDemo : MuMap := [(1, 0), (2, 0), (3, 0), (4, 0)]

/-- A concrete operating point. -/
def opDemoA : OperatingPoint :=
  { maternal_hb := 0, maternal_sat := 0, fetal_hb := 0, fetal_sat := 0, wave_int := 1 }

/-- A numerical Jacobian calculator built at `opDemoA`. -/
def jcDemo : NumericalJC :=
  mkNumericalJC extDemo photonTableDemo opDemoA none baseMuMapDemo Dx.MC MuAEqn.fullBlood 1

/-- A two-SDD table for the convenience-function claim. -/
def sddTableDemo : PhotonTable :=
  { layers := 4, rows := [{ sdd := 1, paths := [1, 0, 0, 1] }, { sdd := 2, paths := [1, 0, 0, 1] }] }

/-- A one-layer absorption map for the ToF demos. -/
def muDemoToF : MuMap := [(1, 0)]

/-- A one-layer table with photons at path sums 0 and 5/2 mm (bins 0 and 2 at
`trDemo`, leaving a gap at bin 1). -/
def gapTableDemo : PhotonTable :=
  { layers := 1, rows := [{ sdd := 1, paths := [0] }, { sdd := 1, paths := [5 / 2] }] }

/-- A time resolution chosen so that a photon with path sum `x` mm lands in bin
`floor(x)`. -/
def trDemo : ℚ := 7 / 1500000000000

/-- The distribution produced by `ToF.init` on `gapTableDemo`: the gap at bin 1
is filled with the log-linearly interpolated value under `extDemo`. -/
def tofDemo : ToF :=
  { time_resolution := trDemo, data := [(0, 2), (1, 3), (2, 2)],
    interpolation_needed := true, lower_bin_index := 0, upper_bin_index := 2 }

/-- A one-layer table containing a single photon with path sum 7 mm. -/
def singleTableDemo : PhotonTable :=
  { layers := 1, rows := [{ sdd := 1, paths := [7] }] }

/-- A series with support `{0, 2}` (bin 1 missing). -/
def tofSeriesA : Series := [(0, 1), (2, 1)]

/-- A series with support `{1}`. -/
def tofSeriesB : Series := [(1, 1)]

/-- `ToF.from_data tofSeriesA 1`: range `[0, 2]` but no entry at bin 1. -/
def tofA : ToF :=
  { time_resolution := 1, data := tofSeriesA, interpolation_needed := false,
    lower_bin_index := 0, upper_bin_index := 2 }

/-- `ToF.from_data tofSeriesB 1`: range `[1, 1]`. -/
def tofB : ToF :=
  { time_resolution := 1, data := tofSeriesB, interpolation_needed := false,
    lower_bin_index := 1, upper_bin_index := 1 }

/-- An exp/log instantiation satisfying `pexp (plog x) = x`, so that - as with
the real `np.exp`/`np.log` - the dummy per-photon intensity of
`ToF.from_data` at unit time resolution equals the series value itself. -/
def extLogDemo : Externals :=
  { pexp := fun x => x + 1, plog := fun x => x - 1, plog10 := fun x => x,
    getMuA := fun s h w => h, getTissueMuA := fun bvf h s w a v => h + s,
    detCount := fun i => 1, photonCount := 1 }

/-- The result of the dummy constructor pass of `ToF.from_data` under
`extDemo` on a two-entry series whose values are 1 (both dummy photons land in
bin 0 with intensity 2 each). -/
def tofDummyDemo : ToF :=
  { time_resolution := 1, data := [(0, 4)], interpolation_needed := false,
    lower_bin_index := 0, upper_bin_index := 0 }

/-! ## Claim theorems -/

/-- Monad bind on a successful `Except` computation. -/
theorem exceptBind_ok {α β : Type} (a : α) (g : α → Except Err β) :
    (Except.ok a >>= g) = g a := rfl

/-- Monad bind on a failed `Except` computation. -/
theorem exceptBind_err {α β : Type} (e : Err) (g : α → Except Err β) :
    ((Except.error e : Except Err α) >>= g) = .error e := rfl

/-- C3 counterexample: on the series `[1e-13, 4e-14, 2e-15, 4e-18, 1e-20]`
indexed `2..6` with `f(l, r) = sum(values[l : r + 1])`, the greedy two-pointer
optimizer in `min` mode started at pointers `(2, 6)` returns optimum `1e-20`,
not `0.0` as claimed: the left pointer climbs to the right pointer and stops at
the singleton slice `{6}`, whose sum is the value stored there.  (The empty-sum
optimum `0.0` of the repository test arises only from the start `(2, 7)`, one
past the last index.) -/
theorem C3_greedy_min_counterexample :
    (two_pointer_discrete_optimize targetFuncDemo 2 6 OptimaType.minMode).2.2 ≠ 0 := by
  decide

/-- C3 amended: started at pointers `(2, 6)` in `min` mode on that series, the
greedy optimizer returns `left = right = 6` with optimum `1e-20` (the value at
the single remaining index), so the pointers do collapse but the optimum is the
last value, not `0.0`. -/
theorem C3_greedy_min_amended :
    two_pointer_discrete_optimize targetFuncDemo 2 6 OptimaType.minMode = (6, 6, 1 / 10 ^ 20) := by
  decide

/-- C1 counterexample: a `RegularDerivative` numerical calculator built at
maternal Hb 0, whose `maternal_hb` field is then mutated to 5, returns the
derivative computed from the mu maps stored at construction time, which
differs from the derivative evaluated at the new field values (the value a
freshly constructed calculator returns).  The numerical calculators build
their three absorption maps only in `__init__` and `calculate_jacobian` never
rereads the operating-point fields. -/
theorem C1_numerical_mutation_counterexample :
    NumericalJC.calculate_jacobian extDemo DerivativeFormat.regular
        (jcDemo.setOperatingPointFields 5 0 0 0 1)
      ≠ NumericalJC.calculate_jacobian extDemo DerivativeFormat.regular
        (mkNumericalJC extDemo photonTableDemo
          { maternal_hb := 5, maternal_sat := 0, fetal_hb := 0, fetal_sat := 0, wave_int := 1 }
          none baseMuMapDemo Dx.MC MuAEqn.fullBlood 1) := by
  decide

/-- C1 amended: after mutating the operating-point fields of a reused
calculator, every numerical calculator (`regular`, `norm_der`, `log`, with
either mu-equation) returns exactly what it returned before the mutation,
because the three absorption maps are generated once at construction; the
analytical calculator (`FullBloodAnalyticalJC`) recomputes its absorption map
and extinction coefficients on every call, so its result equals that of a
calculator freshly constructed at the new field values. -/
theorem C1_amended_recompute_behaviour (E : Externals) (fmt : DerivativeFormat)
    (c : NumericalJC) (a : AnalyticalJC) (mhb msat fhb fsat : ℚ) (w : ℕ) :
    NumericalJC.calculate_jacobian E fmt (c.setOperatingPointFields mhb msat fhb fsat w)
      = NumericalJC.calculate_jacobian E fmt c ∧
    (AnalyticalJC.calculate_jacobian E (a.setOperatingPointFields mhb msat fhb fsat w)).2
      = (AnalyticalJC.calculate_jacobian E (mkAnalyticalJC E a.filtered_photon_data
          a.sdd_index a.base_mu_map a.dx mhb msat fhb fsat w a.mu_a_eqn
          a.normalize_derivative)).2 := by
  constructor
  · cases fmt <;> rfl
  · obtain ⟨fpd, si, bm, dx0, mh, ms, fh, fs, w0, eqn, nd, mm, e1, e2, e3⟩ := a
    cases dx0 <;> rfl

/-- Looking up the key just assigned returns the assigned value. -/
theorem dictGet_dictSet_self (d : MuMap) (k : ℕ) (v : ℚ) :
    dictGet (dictSet d k v) k = some v := by
  induction d with
  | nil => simp [dictSet, dictGet]
  | cons p rest ih =>
    obtain ⟨k', v'⟩ := p
    by_cases h : k' = k
    · subst h
      simp [dictSet, dictGet]
    · simp [dictSet, dictGet, h, ih]

/-- Assignment at one key does not change lookup at any other key. -/
theorem dictGet_dictSet_ne (d : MuMap) (k k' : ℕ) (v : ℚ) (h : k' ≠ k) :
    dictGet (dictSet d k v) k' = dictGet d k' := by
  have h' : k ≠ k' := Ne.symm h
  induction d with
  | nil => simp [dictSet, dictGet, h']
  | cons p rest ih =>
    obtain ⟨k0, v0⟩ := p
    by_cases h0 : k0 = k
    · subst h0
      simp [dictSet, dictGet, h']
    · simp [dictSet, dictGet, h0, ih]

/-- C9: both implementations of `derivative_mu_map_gen` (full blood and
partial blood) leave the caller's base map unmodified, return plus and minus
maps that agree with the returned base map on every layer other than the
affected one (layer 1 for a maternal axis, layer 4 for a fetal axis), and at
the affected layer carry the mu-equation evaluated with the single affected
physiological quantity changed by plus or minus delta. -/
theorem C9_derivative_mu_map_frame (E : Externals) (ps : PartialBloodParams)
    (base : MuMap) (msat mhb fsat fhb δ : ℚ) (w : ℕ) (dx : Dx) :
    (FullBlood_derivative_mu_map_gen E base msat mhb fsat fhb w dx δ).1 = base ∧
    (PartialBlood_derivative_mu_map_gen E ps base msat mhb fsat fhb w dx δ).1 = base ∧
    (∀ k : ℕ, k ≠ (if dx.isMaternal then 1 else 4) →
      dictGet (FullBlood_derivative_mu_map_gen E base msat mhb fsat fhb w dx δ).2.2.1 k
        = dictGet (FullBlood_derivative_mu_map_gen E base msat mhb fsat fhb w dx δ).2.1 k ∧
      dictGet (FullBlood_derivative_mu_map_gen E base msat mhb fsat fhb w dx δ).2.2.2 k
        = dictGet (FullBlood_derivative_mu_map_gen E base msat mhb fsat fhb w dx δ).2.1 k ∧
      dictGet (PartialBlood_derivative_mu_map_gen E ps base msat mhb fsat fhb w dx δ).2.2.1 k
        = dictGet (PartialBlood_derivative_mu_map_gen E ps base msat mhb fsat fhb w dx δ).2.1 k ∧
      dictGet (PartialBlood_derivative_mu_map_gen E ps base msat mhb fsat fhb w dx δ).2.2.2 k
        = dictGet (PartialBlood_derivative_mu_map_gen E ps base msat mhb fsat fhb w dx δ).2.1 k) ∧
    dictGet (FullBlood_derivative_mu_map_gen E base msat mhb fsat fhb w dx δ).2.2.1
        (if dx.isMaternal then 1 else 4)
      = some (match dx with
              | .MC => E.getMuA msat (mhb + δ) w
              | .MS => E.getMuA (msat + δ) mhb w
              | .FC => E.getMuA fsat (fhb + δ) w
              | .FS => E.getMuA (fsat + δ) fhb w) ∧
    dictGet (FullBlood_derivative_mu_map_gen E base msat mhb fsat fhb w dx δ).2.2.2
        (if dx.isMaternal then 1 else 4)
      = some (match dx with
              | .MC => E.getMuA msat (mhb - δ) w
              | .MS => E.getMuA (msat - δ) mhb w
              | .FC => E.getMuA fsat (fhb - δ) w
              | .FS => E.getMuA (fsat - δ) fhb w) ∧
    dictGet (PartialBlood_derivative_mu_map_gen E ps base msat mhb fsat fhb w dx δ).2.2.1
        (if dx.isMaternal then 1 else 4)
      = some (match dx with
              | .MC => E.getTissueMuA ps.maternal_blood_volume_fraction (mhb + δ) msat w
                  ps.maternal_arterial_fraction ps.maternal_venous_saturation_reduction_factor
              | .MS => E.getTissueMuA ps.maternal_blood_volume_fraction mhb (msat + δ) w
                  ps.maternal_arterial_fraction ps.maternal_venous_saturation_reduction_factor
              | .FC => E.getTissueMuA ps.fetal_blood_volume_fraction (fhb + δ) fsat w
                  ps.fetal_arterial_fraction ps.fetal_venous_saturation_reduction_factor
              | .FS => E.getTissueMuA ps.fetal_blood_volume_fraction fhb (fsat + δ) w
                  ps.fetal_arterial_fraction ps.fetal_venous_saturation_reduction_factor) ∧
    dictGet (PartialBlood_derivative_mu_map_gen E ps base msat mhb fsat fhb w dx δ).2.2.2
        (if dx.isMaternal then 1 else 4)
      = some (match dx with
              | .MC => E.getTissueMuA ps.maternal_blood_volume_fraction (mhb - δ) msat w
                  ps.maternal_arterial_fraction ps.maternal_venous_saturation_reduction_factor
              | .MS => E.getTissueMuA ps.maternal_blood_volume_fraction mhb (msat - δ) w
                  ps.maternal_arterial_fraction ps.maternal_venous_saturation_reduction_factor
              | .FC => E.getTissueMuA ps.fetal_blood_volume_fraction (fhb - δ) fsat w
                  ps.fetal_arterial_fraction ps.fetal_venous_saturation_reduction_factor
              | .FS => E.getTissueMuA ps.fetal_blood_volume_fraction fhb (fsat - δ) w
                  ps.fetal_arterial_fraction ps.fetal_venous_saturation_reduction_factor) := by
  cases dx <;>
    refine ⟨rfl, rfl, fun k hk => ?_, ?_, ?_, ?_, ?_⟩ <;>
    simp_all [FullBlood_derivative_mu_map_gen, PartialBlood_derivative_mu_map_gen,
      Dx.isMaternal, Dx.isConc, dictGet_dictSet_self, dictGet_dictSet_ne]

/-- C9 witness: at a concrete input with a maternal-concentration axis, the
plus map agrees with the base map at layer 2 and carries the perturbed
coefficient at layer 1. -/
theorem C9_derivative_mu_map_frame_witness :
    (dictGet (FullBlood_derivative_mu_map_gen extDemo baseMuMapDemo 0 2 0 0 1 Dx.MC 1).2.2.1 2
      = dictGet (FullBlood_derivative_mu_map_gen extDemo baseMuMapDemo 0 2 0 0 1 Dx.MC 1).2.1 2) ∧
    dictGet (FullBlood_derivative_mu_map_gen extDemo baseMuMapDemo 0 2 0 0 1 Dx.MC 1).2.2.1 1
      = some (extDemo.getMuA 0 (2 + 1) 1) :=
  ⟨((C9_derivative_mu_map_frame extDemo psDemo baseMuMapDemo 0 2 0 0 1 1 Dx.MC).2.2.1 2
      (by decide)).1,
   (C9_derivative_mu_map_frame extDemo psDemo baseMuMapDemo 0 2 0 0 1 1 Dx.MC).2.2.2.1⟩

/-- C2: both convenience functions fail with IndexError for a detector index
at or beyond the number of unique SDD values; for an in-range index the
`formulae.py` version constructs the calculator on the SDD-filtered table and
returns its `calculate_jacobian()`, while `calculate_jacobian_numerical`
always fails with AttributeError because its construction call passes `delta`
in the constructor's `dx` slot and the axis string in the `mu_a_eqn` slot. -/
theorem C2_convenience_function_behaviour (E : Externals) (fmt : DerivativeFormat)
    (photonData : PhotonTable) (sddIdx : ℕ) (base : MuMap) (δ : ℚ) (dx : Dx)
    (sddList : Option (List ℚ)) (mhb msat fhb fsat : ℚ) (w : ℕ) :
    (sddIdx < (sddList.getD (pyUnique (photonData.rows.map (fun r => r.sdd)))).length →
      calculate_jacobian_numerical E fmt photonData sddIdx base δ dx sddList mhb msat fhb fsat w
        = .error .attributeError) ∧
    ((sddList.getD (pyUnique (photonData.rows.map (fun r => r.sdd)))).length ≤ sddIdx →
      calculate_jacobian_numerical E fmt photonData sddIdx base δ dx sddList mhb msat fhb fsat w
        = .error .indexError ∧
      Formulae.calculate_jacobian E fmt photonData sddIdx base δ dx sddList mhb msat fhb fsat w
        = .error .indexError) ∧
    (sddIdx < (sddList.getD (pyUnique (photonData.rows.map (fun r => r.sdd)))).length →
      Formulae.calculate_jacobian E fmt photonData sddIdx base δ dx sddList mhb msat fhb fsat w
        = NumericalJC.calculate_jacobian E fmt (mkNumericalJC E
            (filterBySdd photonData
              ((sddList.getD (pyUnique (photonData.rows.map (fun r => r.sdd)))).getD sddIdx 0))
            { maternal_hb := mhb, maternal_sat := msat, fetal_hb := fhb,
              fetal_sat := fsat, wave_int := w }
            (some sddIdx) base dx MuAEqn.fullBlood δ)) := by
  refine ⟨fun h => ?_, fun h => ⟨?_, ?_⟩, fun h => ?_⟩
  · simp only [calculate_jacobian_numerical, pyInitNumericalJC]
    rw [if_pos h]
    rfl
  · simp only [calculate_jacobian_numerical]
    rw [if_neg (by omega)]
  · simp only [Formulae.calculate_jacobian]
    rw [if_neg (by omega)]
  · simp only [Formulae.calculate_jacobian]
    rw [if_pos h]

/-- C2 witness: on a concrete two-SDD table, detector index 0 is in range and
the numerical convenience function fails with AttributeError, while index 5 is
out of range and fails with IndexError. -/
theorem C2_convenience_function_behaviour_witness :
    calculate_jacobian_numerical extDemo DerivativeFormat.regular sddTableDemo 0
        baseMuMapDemo 1 Dx.MC none 0 0 0 0 1 = .error .attributeError ∧
    calculate_jacobian_numerical extDemo DerivativeFormat.regular sddTableDemo 5
        baseMuMapDemo 1 Dx.MC none 0 0 0 0 1 = .error .indexError :=
  ⟨(C2_convenience_function_behaviour extDemo DerivativeFormat.regular sddTableDemo 0
      baseMuMapDemo 1 Dx.MC none 0 0 0 0 1).1 (by decide),
   ((C2_convenience_function_behaviour extDemo DerivativeFormat.regular sddTableDemo 5
      baseMuMapDemo 1 Dx.MC none 0 0 0 0 1).2.1 (by decide)).1⟩

/-- Membership in an ordered insertion. -/
theorem mem_insertSortedByKey (p q : ℕ × ℚ) (l : MuMap) :
    q ∈ insertSortedByKey p l ↔ q = p ∨ q ∈ l := by
  induction l with
  | nil => simp [insertSortedByKey]
  | cons r rest ih =>
    by_cases h : p.1 < r.1
    · simp [insertSortedByKey, h, List.mem_cons]
      try tauto
    · simp [insertSortedByKey, h, List.mem_cons, ih]
      try tauto

/-- Sorting a dict's items does not change the set of items. -/
theorem mem_sortByKey (q : ℕ × ℚ) (l : MuMap) : q ∈ sortByKey l ↔ q ∈ l := by
  induction l with
  | nil => simp [sortByKey]
  | cons p rest ih =>
    have hstep : sortByKey (p :: rest) = insertSortedByKey p (sortByKey rest) := rfl
    rw [hstep, mem_insertSortedByKey]
    simp [ih, List.mem_cons]

/-- When every layer key is between 1 and the column count, the attenuation
fold never hits an IndexError. -/
theorem foldlM_applyMu_ok (E : Externals) (L : ℕ) (entries : MuMap) :
    ∀ vec : List ℚ, (∀ p ∈ entries, 1 ≤ p.1 ∧ p.1 ≤ L) →
      ∃ v, entries.foldlM (applyMu E L) vec = .ok v := by
  induction entries with
  | nil => exact fun vec h => ⟨vec, rfl⟩
  | cons p rest ih =>
    intro vec h
    have hp := h p (List.mem_cons_self p rest)
    have hcol : pyColIdx L p.1 = some (p.1 - 1) := by
      unfold pyColIdx
      rw [if_neg (by omega), if_pos (by omega)]
    obtain ⟨v, hv⟩ := ih (vec.set (p.1 - 1) (E.pexp (-(p.2 * vec.getD (p.1 - 1) 0))))
      (fun q hq => h q (List.mem_cons_of_mem p hq))
    refine ⟨v, ?_⟩
    rw [List.foldlM_cons]
    simp only [applyMu, hcol, exceptBind_ok]
    exact hv

/-- With valid layer keys, the per-row intensity map succeeds and yields one
value per row. -/
theorem mapM_intensityRow_ok (E : Externals) (L : ℕ) (entries : MuMap)
    (rows : List PhotonRow) (h : ∀ p ∈ entries, 1 ≤ p.1 ∧ p.1 ≤ L) :
    ∃ col, rows.mapM (fun r => intensityRow E L entries r.paths) = .ok col ∧
      col.length = rows.length := by
  induction rows with
  | nil => exact ⟨[], rfl, rfl⟩
  | cons r rest ih =>
    obtain ⟨col, hcol, hlen⟩ := ih
    obtain ⟨v, hv⟩ := foldlM_applyMu_ok E L entries r.paths h
    have hrow : intensityRow E L entries r.paths = .ok v.prod := by
      simp only [intensityRow, hv, exceptBind_ok]
      rfl
    refine ⟨v.prod :: col, ?_, by simp [hlen]⟩
    rw [List.mapM_cons, hrow]
    simp only [exceptBind_ok]
    rw [hcol]
    rfl

/-- C8: `generate_intensity_column` fails with ShapeMismatch exactly when the
absorption map's entry count differs from the table's path-column count, and
otherwise (for maps whose keys are valid layer numbers, as the data model
requires) returns one intensity per input row. -/
theorem C8_intensity_column_shape (E : Externals) (tbl : PhotonTable) (muMap : MuMap)
    (sddIdx : Option ℕ) :
    (muMap.length ≠ tbl.layers →
      generate_intensity_column E tbl muMap sddIdx = .error .shapeMismatch) ∧
    (muMap.length = tbl.layers → (∀ p ∈ muMap, 1 ≤ p.1 ∧ p.1 ≤ tbl.layers) →
      ∃ col, generate_intensity_column E tbl muMap sddIdx = .ok col ∧
        col.length = tbl.rows.length) := by
  constructor
  · intro h
    simp only [generate_intensity_column]
    rw [if_neg h]
  · intro h hkeys
    have hkeys' : ∀ p ∈ sortByKey muMap, 1 ≤ p.1 ∧ p.1 ≤ tbl.layers :=
      fun p hp => hkeys p ((mem_sortByKey p muMap).mp hp)
    obtain ⟨col, hcol, hlen⟩ := mapM_intensityRow_ok E tbl.layers (sortByKey muMap)
      tbl.rows hkeys'
    cases sddIdx with
    | none =>
      refine ⟨col, ?_, hlen⟩
      simp only [generate_intensity_column]
      rw [if_pos h, hcol]
      rfl
    | some i =>
      refine ⟨col.map (fun q => q / E.detCount i / E.photonCount), ?_, by simp [hlen]⟩
      simp only [generate_intensity_column]
      rw [if_pos h, hcol]
      rfl

/-- C8 witness: on the concrete four-layer single-photon table with a
four-entry map the column has exactly one entry. -/
theorem C8_intensity_column_shape_witness :
    ∃ col, generate_intensity_column extDemo photonTableDemo baseMuMapDemo none = .ok col ∧
      col.length = photonTableDemo.rows.length :=
  (C8_intensity_column_shape extDemo photonTableDemo baseMuMapDemo none).2
    (by decide) (by decide)

/-- The running minimum is bounded by its initial value. -/
theorem foldl_min_le_init (xs : List ℤ) (x : ℤ) : xs.foldl min x ≤ x := by
  induction xs generalizing x with
  | nil => simp
  | cons z zs ih =>
    rw [List.foldl_cons]
    exact le_trans (ih (min x z)) (min_le_left x z)

/-- The running minimum is bounded by every list element. -/
theorem foldl_min_le_of_mem (xs : List ℤ) (x y : ℤ) (h : y ∈ xs) : xs.foldl min x ≤ y := by
  induction xs generalizing x with
  | nil => cases h
  | cons z zs ih =>
    rw [List.foldl_cons]
    rcases List.mem_cons.mp h with rfl | hy
    · exact le_trans (foldl_min_le_init zs (min x y)) (min_le_right x y)
    · exact ih (min x z) hy

/-- The running minimum is one of the initial value or a list element. -/
theorem foldl_min_mem (xs : List ℤ) (x : ℤ) : xs.foldl min x ∈ x :: xs := by
  induction xs generalizing x with
  | nil => simp
  | cons z zs ih =>
    rw [List.foldl_cons]
    rcases List.mem_cons.mp (ih (min x z)) with he | hm
    · rcases min_choice x z with h1 | h1
      · rw [he, h1]
        exact List.mem_cons_self x (z :: zs)
      · rw [he, h1]
        exact List.mem_cons_of_mem x (List.mem_cons_self z zs)
    · exact List.mem_cons_of_mem x (List.mem_cons_of_mem z hm)

/-- The running maximum is bounded below by its initial value. -/
theorem le_foldl_max_init (xs : List ℤ) (x : ℤ) : x ≤ xs.foldl max x := by
  induction xs generalizing x with
  | nil => simp
  | cons z zs ih =>
    rw [List.foldl_cons]
    exact le_trans (le_max_left x z) (ih (max x z))

/-- The running maximum bounds every list element. -/
theorem le_foldl_max_of_mem (xs : List ℤ) (x y : ℤ) (h : y ∈ xs) : y ≤ xs.foldl max x := by
  induction xs generalizing x with
  | nil => cases h
  | cons z zs ih =>
    rw [List.foldl_cons]
    rcases List.mem_cons.mp h with rfl | hy
    · exact le_trans (le_max_right x y) (le_foldl_max_init zs (max x y))
    · exact ih (max x z) hy

/-- The running maximum is one of the initial value or a list element. -/
theorem foldl_max_mem (xs : List ℤ) (x : ℤ) : xs.foldl max x ∈ x :: xs := by
  induction xs generalizing x with
  | nil => simp
  | cons z zs ih =>
    rw [List.foldl_cons]
    rcases List.mem_cons.mp (ih (max x z)) with he | hm
    · rcases max_choice x z with h1 | h1
      · rw [he, h1]
        exact List.mem_cons_self x (z :: zs)
      · rw [he, h1]
        exact List.mem_cons_of_mem x (List.mem_cons_self z zs)
    · exact List.mem_cons_of_mem x (List.mem_cons_of_mem z hm)

/-- `index.values.min()` bounds every index. -/
theorem listMinD_le (l : List ℤ) (d y : ℤ) (h : y ∈ l) : listMinD l d ≤ y := by
  cases l with
  | nil => cases h
  | cons x xs =>
    rcases List.mem_cons.mp h with rfl | hy
    · exact foldl_min_le_init xs y
    · exact foldl_min_le_of_mem xs x y hy

/-- `index.values.min()` of a nonempty index is one of its entries. -/
theorem listMinD_mem (l : List ℤ) (d : ℤ) (h : l ≠ []) : listMinD l d ∈ l := by
  cases l with
  | nil => exact absurd rfl h
  | cons x xs => exact foldl_min_mem xs x

/-- `index.values.max()` bounds every index. -/
theorem le_listMaxD (l : List ℤ) (d y : ℤ) (h : y ∈ l) : y ≤ listMaxD l d := by
  cases l with
  | nil => cases h
  | cons x xs =>
    rcases List.mem_cons.mp h with rfl | hy
    · exact le_foldl_max_init xs y
    · exact le_foldl_max_of_mem xs x y hy

/-- `index.values.max()` of a nonempty index is one of its entries. -/
theorem listMaxD_mem (l : List ℤ) (d : ℤ) (h : l ≠ []) : listMaxD l d ∈ l := by
  cases l with
  | nil => exact absurd rfl h
  | cons x xs => exact foldl_max_mem xs x

/-- The constructor stores exactly the time resolution it was given. -/
theorem init_time_resolution (E : Externals) (tbl : PhotonTable) (tr : ℚ)
    (muMap : MuMap) (sddIdx : Option ℕ) (cutoff : ℚ) (t : ToF)
    (hinit : ToF.init E tbl tr muMap sddIdx cutoff = .ok t) :
    t.time_resolution = tr := by
  cases hraw : rawKeptBins E tbl tr muMap sddIdx cutoff with
  | error e =>
    simp only [ToF.init] at hinit
    rw [hraw] at hinit
    simp only [exceptBind_err] at hinit
    exact Except.noConfusion hinit
  | ok kept =>
    simp only [ToF.init] at hinit
    rw [hraw] at hinit
    simp only [exceptBind_ok] at hinit
    cases kept with
    | nil => simp at hinit
    | cons p rest => rw [← Except.ok.inj hinit]

/-- `ToF.from_data` succeeds exactly when the dummy constructor pass does, and
then carries the given series and its index bounds over the dummy result. -/
theorem from_data_ok (E : Externals) (s : Series) (tr : ℚ) (d : ToF)
    (hd : ToF.init E (dummyTable E s tr) tr [(1, 1)] none (1 / 10 ^ 30) = .ok d) :
    ToF.from_data E s tr =
      .ok { d with
            data := s
            lower_bin_index := listMinD (s.map Prod.fst) 0
            upper_bin_index := listMaxD (s.map Prod.fst) 0 } := by
  simp only [ToF.from_data, hd, exceptBind_ok]
  rfl

/-- Sufficient conditions for the compatibility check to pass. -/
theorem check_eq_true (t1 t2 : ToF) (htr : t1.time_resolution = t2.time_resolution)
    (h1 : ¬t1.lower_bin_index > t2.upper_bin_index)
    (h2 : ¬t1.upper_bin_index < t2.lower_bin_index) :
    t1.check_operation_compatibility t2 = true := by
  simp [ToF.check_operation_compatibility, htr, h1, h2]

/-- A member's key always has a successful first-match lookup, and the looked
up value belongs to the series at that key. -/
theorem sLookup_mem (s : Series) (p : ℤ × ℚ) (h : p ∈ s) :
    ∃ v, sLookup s p.1 = some v ∧ (p.1, v) ∈ s := by
  induction s with
  | nil => cases h
  | cons q rest ih =>
    by_cases hq : q.1 = p.1
    · refine ⟨q.2, by simp [sLookup, hq], ?_⟩
      rw [← hq]
      exact List.mem_cons_self q rest
    · rcases List.mem_cons.mp h with rfl | hm
      · exact absurd rfl hq
      · obtain ⟨v, hv, hmem⟩ := ih hm
        exact ⟨v, by simp [sLookup, hq, hv], List.mem_cons_of_mem q hmem⟩

/-- Mapping two functions that agree on the list gives equal images. -/
theorem map_congr_mem {α β : Type} (l : List α) (f g : α → β) (h : ∀ a ∈ l, f a = g a) :
    l.map f = l.map g := by
  induction l with
  | nil => rfl
  | cons a tl ih =>
    simp only [List.map_cons]
    rw [h a (List.mem_cons_self a tl), ih (fun b hb => h b (List.mem_cons_of_mem a hb))]

/-- Inversion of a successful `ToF.from_data`: the result carries the given
series, the given time resolution (which the dummy constructor pass also
stored), and the series' index bounds. -/
theorem from_data_ok_inv (E : Externals) (s : Series) (tr : ℚ) (u : ToF)
    (h : ToF.from_data E s tr = .ok u) :
    u.data = s ∧ u.time_resolution = tr ∧
    u.lower_bin_index = listMinD (s.map Prod.fst) 0 ∧
    u.upper_bin_index = listMaxD (s.map Prod.fst) 0 := by
  cases hd : ToF.init E (dummyTable E s tr) tr [(1, 1)] none (1 / 10 ^ 30) with
  | error e =>
    simp only [ToF.from_data] at h
    rw [hd] at h
    simp only [exceptBind_err] at h
    exact Except.noConfusion h
  | ok d =>
    simp only [ToF.from_data] at h
    rw [hd] at h
    simp only [exceptBind_ok] at h
    rw [← Except.ok.inj h]
    exact ⟨rfl, init_time_resolution E _ _ _ _ _ d hd, rfl, rfl⟩

/-- C5 counterexample: two distributions built by `ToF.from_data` with equal
time resolution and overlapping index ranges (`[0,2]` and `[1,1]`) pass
`check_operation_compatibility`, yet multiplying them raises the empty-series
ValueError rather than succeeding: their data supports `{0, 2}` and `{1}` are
disjoint, so the element-wise result is the empty series and the dummy
reconstruction inside `from_data` hits numpy's min-of-empty, refuting the
claimed "succeeds when the check is true". -/
theorem C5_compatibility_counterexample :
    ToF.from_data extDemo tofSeriesA 1 = .ok tofA ∧
    ToF.from_data extDemo tofSeriesB 1 = .ok tofB ∧
    tofA.check_operation_compatibility tofB = true ∧
    ToF.mulOp extDemo tofA tofB = .error .valueError := by
  decide

/-- C5 amended: every arithmetic operator fails with IncompatibleDistributions
exactly when the compatibility check is false; when the check is true it
forwards the element-wise result over the common bins to `from_data`, and
succeeds whenever `from_data`'s internal dummy reconstruction of that result
keeps at least one bin above the intensity cutoff; otherwise (no shared bin,
or every reconstructed bin at or below the cutoff) it fails with the
empty-series ValueError instead. -/
theorem C5_compatibility_amended (E : Externals) (t1 t2 : ToF) (f : ℚ → ℚ → ℚ) (d : ToF) :
    (t1.check_operation_compatibility t2 = false →
      ToF.operate E t1 t2 f = .error .incompatibleDistributions) ∧
    (t1.check_operation_compatibility t2 = true →
      ToF.operate E t1 t2 f = ToF.from_data E ((commonBins t1 t2).map
        (fun i => (i, f (sGetD t1.data i 0) (sGetD t2.data i 0)))) t1.time_resolution) ∧
    (t1.check_operation_compatibility t2 = true →
      ToF.init E (dummyTable E ((commonBins t1 t2).map
          (fun i => (i, f (sGetD t1.data i 0) (sGetD t2.data i 0)))) t1.time_resolution)
        t1.time_resolution [(1, 1)] none (1 / 10 ^ 30) = .ok d →
      ∃ t, ToF.operate E t1 t2 f = .ok t) := by
  refine ⟨fun h => ?_, fun h => ?_, fun h hd => ?_⟩
  · simp [ToF.operate, h]
  · simp only [ToF.operate, h, if_true]
  · exact ⟨_, by
      simp only [ToF.operate, h, if_true]
      exact from_data_ok E _ _ d hd⟩

/-- C5 amended witness: a compatible pair with shared support whose
element-wise result survives the dummy reconstruction succeeds. -/
theorem C5_compatibility_amended_witness :
    ∃ t, ToF.operate extDemo tofA tofA (fun x y => x * y) = .ok t :=
  (C5_compatibility_amended extDemo tofA tofA (fun x y => x * y) tofDummyDemo).2.2
    (by decide) (by decide)

/-- Specification of a successful `_operate` call: when the check passes and
the dummy reconstruction of the element-wise result succeeds, the operand
states are untouched and the result carries the left operand's time
resolution, bounds at the minimum and maximum common bin, and the operation
applied bin-wise over exactly the common bins. -/
theorem operate_spec (E : Externals) (t1 t2 : ToF) (f : ℚ → ℚ → ℚ) (d : ToF)
    (hc : t1.check_operation_compatibility t2 = true)
    (hne : commonBins t1 t2 ≠ [])
    (hd : ToF.init E (dummyTable E ((commonBins t1 t2).map
        (fun i => (i, f (sGetD t1.data i 0) (sGetD t2.data i 0)))) t1.time_resolution)
        t1.time_resolution [(1, 1)] none (1 / 10 ^ 30) = .ok d) :
    ∃ t, (ToF.operateSt E t1 t2 f).1 = (t1, t2) ∧ (ToF.operateSt E t1 t2 f).2 = .ok t ∧
      t.time_resolution = t1.time_resolution ∧
      t.lower_bin_index ∈ commonBins t1 t2 ∧
      (∀ k ∈ commonBins t1 t2, t.lower_bin_index ≤ k) ∧
      t.upper_bin_index ∈ commonBins t1 t2 ∧
      (∀ k ∈ commonBins t1 t2, k ≤ t.upper_bin_index) ∧
      t.data = (commonBins t1 t2).map
        (fun i => (i, f (sGetD t1.data i 0) (sGetD t2.data i 0))) := by
  have hmapkeys : (((commonBins t1 t2).map
      (fun i => (i, f (sGetD t1.data i 0) (sGetD t2.data i 0)))).map Prod.fst)
      = commonBins t1 t2 := by
    have hcomp : (Prod.fst ∘ fun i : ℤ => (i, f (sGetD t1.data i 0) (sGetD t2.data i 0))) = id :=
      rfl
    rw [List.map_map, hcomp, List.map_id]
  refine ⟨{ d with
            data := (commonBins t1 t2).map
              (fun i => (i, f (sGetD t1.data i 0) (sGetD t2.data i 0)))
            lower_bin_index := listMinD (commonBins t1 t2) 0
            upper_bin_index := listMaxD (commonBins t1 t2) 0 },
    rfl, ?_, ?_, ?_, ?_, ?_, ?_, rfl⟩
  · show ToF.operate E t1 t2 f = _
    simp only [ToF.operate, hc, if_true]
    rw [from_data_ok E _ _ d hd, hmapkeys]
  · show d.time_resolution = t1.time_resolution
    exact init_time_resolution E _ _ _ _ _ d hd
  · exact listMinD_mem _ _ hne
  · exact fun k hk => listMinD_le _ _ _ hk
  · exact listMaxD_mem _ _ hne
  · exact fun k hk => le_listMaxD _ _ _ hk

/-- C10 counterexample: subtracting a distribution from itself - a compatible
pair with fully shared support - produces the all-zero series, whose dummy
reconstruction drops every bin (each reconstructed intensity is
`exp(log 0 * tr) = 0`, at or below the cutoff), so `_operate` raises the
empty-series ValueError and no fresh distribution results. -/
theorem C10_operate_failure_counterexample :
    tofA.check_operation_compatibility tofA = true ∧
    commonBins tofA tofA ≠ [] ∧
    (ToF.operateSt extLogDemo tofA tofA (fun x y => x - y)).2 = .error .valueError := by
  decide

/-- C10 amended: on a compatible pair with shared support, whenever the
element-wise result survives `from_data`'s dummy reconstruction, the
arithmetic operation leaves both operand states untouched and produces a
fresh distribution whose time resolution is the left operand's and whose
bounds are the minimum and maximum of the common bins, with the operation
applied bin-wise over exactly the common bins. -/
theorem C10_operate_result_invariants (E : Externals) (t1 t2 : ToF) (f : ℚ → ℚ → ℚ)
    (d : ToF)
    (hc : t1.check_operation_compatibility t2 = true)
    (hne : commonBins t1 t2 ≠ [])
    (hd : ToF.init E (dummyTable E ((commonBins t1 t2).map
        (fun i => (i, f (sGetD t1.data i 0) (sGetD t2.data i 0)))) t1.time_resolution)
        t1.time_resolution [(1, 1)] none (1 / 10 ^ 30) = .ok d) :
    ∃ t, (ToF.operateSt E t1 t2 f).1 = (t1, t2) ∧ (ToF.operateSt E t1 t2 f).2 = .ok t ∧
      t.time_resolution = t1.time_resolution ∧
      t.lower_bin_index ∈ commonBins t1 t2 ∧
      (∀ k ∈ commonBins t1 t2, t.lower_bin_index ≤ k) ∧
      t.upper_bin_index ∈ commonBins t1 t2 ∧
      (∀ k ∈ commonBins t1 t2, k ≤ t.upper_bin_index) ∧
      t.data = (commonBins t1 t2).map
        (fun i => (i, f (sGetD t1.data i 0) (sGetD t2.data i 0))) :=
  operate_spec E t1 t2 f d hc hne hd

/-- C10 witness: multiplying a distribution with itself. -/
theorem C10_operate_result_invariants_witness :
    ∃ t, (ToF.operateSt extDemo tofA tofA (fun x y => x * y)).1 = (tofA, tofA) ∧
      (ToF.operateSt extDemo tofA tofA (fun x y => x * y)).2 = .ok t ∧
      t.time_resolution = tofA.time_resolution ∧
      t.lower_bin_index ∈ commonBins tofA tofA ∧
      (∀ k ∈ commonBins tofA tofA, t.lower_bin_index ≤ k) ∧
      t.upper_bin_index ∈ commonBins tofA tofA ∧
      (∀ k ∈ commonBins tofA tofA, k ≤ t.upper_bin_index) ∧
      t.data = (commonBins tofA tofA).map
        (fun i => (i, (sGetD tofA.data i 0) * (sGetD tofA.data i 0))) :=
  C10_operate_result_invariants extDemo tofA tofA (fun x y => x * y) tofDummyDemo
    (by decide) (by decide) (by decide)

/-- C6 counterexample: the positive one-entry series `[(0, 1e-40)]` at time
resolution 1 already fails in `ToF.from_data` - the dummy reconstruction's
per-photon intensity is `exp(log(1e-40) * 1) = 1e-40`, at or below the
`1e-30` cutoff, so every bin is dropped and the min-of-empty ValueError is
raised (here under an exp/log instantiation with `pexp (plog x) = x`, as for
the real `np.exp`/`np.log`).  No quotient distribution is ever produced, so
the claim's universal statement over positive series fails. -/
theorem C6_arithmetic_identity_counterexample :
    (0 : ℚ) < 1 / 10 ^ 40 ∧
    ToF.from_data extLogDemo [((0 : ℤ), 1 / 10 ^ 40)] 1 = .error .valueError := by
  decide

/-- C6 amended: for a nonempty positive series whose `from_data`
reconstruction succeeds, dividing the resulting distribution by itself yields
data 1.0 at every index of the input (provided the all-ones result series
itself survives the dummy reconstruction); multiplying two `from_data`
distributions sharing a bin yields the element-wise product over the
intersection of their supports, bins outside dropped, provided the product
series survives the dummy reconstruction. -/
theorem C6_arithmetic_identity (E : Externals) (s s1 s2 : Series) (tr : ℚ) (d1 d2 : ToF) :
    (s ≠ [] → ∀ u, ToF.from_data E s tr = .ok u → (∀ p ∈ s, 0 < p.2) →
      ToF.init E (dummyTable E (s.map (fun p => (p.1, (1 : ℚ)))) tr) tr [(1, 1)] none
        (1 / 10 ^ 30) = .ok d1 →
      ∃ t, ToF.operate E u u (fun x y => x / y) = .ok t ∧
        t.data = s.map (fun p => (p.1, 1))) ∧
    (∀ u1 u2, ToF.from_data E s1 tr = .ok u1 → ToF.from_data E s2 tr = .ok u2 →
      (s1.map Prod.fst).filter (fun i => decide (i ∈ s2.map Prod.fst)) ≠ [] →
      ToF.init E (dummyTable E (((s1.map Prod.fst).filter
          (fun i => decide (i ∈ s2.map Prod.fst))).map
          (fun i => (i, sGetD s1 i 0 * sGetD s2 i 0))) tr) tr [(1, 1)] none
        (1 / 10 ^ 30) = .ok d2 →
      ∃ t, ToF.operate E u1 u2 (fun x y => x * y) = .ok t ∧
        t.data = ((s1.map Prod.fst).filter (fun i => decide (i ∈ s2.map Prod.fst))).map
          (fun i => (i, sGetD s1 i 0 * sGetD s2 i 0))) := by
  constructor
  · intro hne u hu hpos hd1
    obtain ⟨hud, hutr, hul, huu⟩ := from_data_ok_inv E s tr u hu
    obtain ⟨p0, hp0⟩ : ∃ p0, p0 ∈ s := by
      cases s with
      | nil => exact absurd rfl hne
      | cons a b => exact ⟨a, List.mem_cons_self a b⟩
    have hk0 : p0.1 ∈ s.map Prod.fst := List.mem_map_of_mem Prod.fst hp0
    have hmin := listMinD_le (s.map Prod.fst) 0 p0.1 hk0
    have hmax := le_listMaxD (s.map Prod.fst) 0 p0.1 hk0
    have hcheck : u.check_operation_compatibility u = true := by
      refine check_eq_true u u rfl ?_ ?_
      · rw [hul, huu]
        omega
      · rw [huu, hul]
        omega
    have hcommon : commonBins u u = s.map Prod.fst := by
      simp only [commonBins, hud]
      exact List.filter_eq_self.mpr (fun a ha => decide_eq_true ha)
    have hdata2 : (commonBins u u).map
        (fun i => (i, sGetD u.data i 0 / sGetD u.data i 0))
        = s.map (fun p => (p.1, (1 : ℚ))) := by
      rw [hcommon, hud, List.map_map]
      apply map_congr_mem
      intro p hp
      obtain ⟨v, hv, hmem⟩ := sLookup_mem s p hp
      have hvpos : 0 < v := hpos (p.1, v) hmem
      simp [Function.comp, sGetD, hv, div_self (ne_of_gt hvpos)]
    have hd' : ToF.init E (dummyTable E ((commonBins u u).map
        (fun i => (i, sGetD u.data i 0 / sGetD u.data i 0))) u.time_resolution)
        u.time_resolution [(1, 1)] none (1 / 10 ^ 30) = .ok d1 := by
      rw [hdata2, hutr]
      exact hd1
    have hkeysne : s.map Prod.fst ≠ [] := by simp [List.map_eq_nil_iff, hne]
    obtain ⟨t, hfr, hok, htr, hml, hal, hmu, hau, hdata⟩ :=
      operate_spec E u u (fun x y => x / y) d1 hcheck (by rw [hcommon]; exact hkeysne) hd'
    exact ⟨t, hok, by rw [hdata, hdata2]⟩
  · intro u1 u2 hu1 hu2 hne12 hd2
    obtain ⟨hud1, hutr1, hul1, huu1⟩ := from_data_ok_inv E s1 tr u1 hu1
    obtain ⟨hud2, hutr2, hul2, huu2⟩ := from_data_ok_inv E s2 tr u2 hu2
    obtain ⟨k0, hk0⟩ : ∃ k0, k0 ∈ (s1.map Prod.fst).filter
        (fun i => decide (i ∈ s2.map Prod.fst)) := by
      cases hc : (s1.map Prod.fst).filter (fun i => decide (i ∈ s2.map Prod.fst)) with
      | nil => exact absurd hc hne12
      | cons a b => exact ⟨a, List.mem_cons_self a b⟩
    have hk1 : k0 ∈ s1.map Prod.fst := List.mem_of_mem_filter hk0
    have hk2 : k0 ∈ s2.map Prod.fst := by simpa using List.of_mem_filter hk0
    have hmin1 := listMinD_le (s1.map Prod.fst) 0 k0 hk1
    have hmax1 := le_listMaxD (s1.map Prod.fst) 0 k0 hk1
    have hmin2 := listMinD_le (s2.map Prod.fst) 0 k0 hk2
    have hmax2 := le_listMaxD (s2.map Prod.fst) 0 k0 hk2
    have hcheck : u1.check_operation_compatibility u2 = true := by
      refine check_eq_true u1 u2 (by rw [hutr1, hutr2]) ?_ ?_
      · rw [hul1, huu2]
        omega
      · rw [huu1, hul2]
        omega
    have hcommon : commonBins u1 u2
        = (s1.map Prod.fst).filter (fun i => decide (i ∈ s2.map Prod.fst)) := by
      simp only [commonBins, hud1, hud2]
    have hprod : (commonBins u1 u2).map
        (fun i => (i, sGetD u1.data i 0 * sGetD u2.data i 0))
        = ((s1.map Prod.fst).filter (fun i => decide (i ∈ s2.map Prod.fst))).map
          (fun i => (i, sGetD s1 i 0 * sGetD s2 i 0)) := by
      rw [hcommon, hud1, hud2]
    have hd' : ToF.init E (dummyTable E ((commonBins u1 u2).map
        (fun i => (i, sGetD u1.data i 0 * sGetD u2.data i 0))) u1.time_resolution)
        u1.time_resolution [(1, 1)] none (1 / 10 ^ 30) = .ok d2 := by
      rw [hprod, hutr1]
      exact hd2
    obtain ⟨t, hfr, hok, htr, hml, hal, hmu, hau, hdata⟩ :=
      operate_spec E u1 u2 (fun x y => x * y) d2 hcheck (by rw [hcommon]; exact hne12) hd'
    exact ⟨t, hok, by rw [hdata, hprod]⟩

/-- C6 witness: the all-ones series on bins 0 and 2 divided by itself is all
ones over its own index. -/
theorem C6_arithmetic_identity_witness :
    ∃ t, ToF.operate extDemo tofA tofA (fun x y => x / y) = .ok t ∧
      t.data = tofSeriesA.map (fun p => (p.1, 1)) :=
  (C6_arithmetic_identity extDemo tofSeriesA tofSeriesA tofSeriesA 1 tofDummyDemo
    tofDummyDemo).1 (by decide) tofA (by decide) (by decide) (by decide)

/-- C7: a distribution built from a table containing a single photon whose
per-layer paths sum to `L` millimetres (with per-photon intensity above the
cutoff) has exactly one bin, which is nonzero and sits at index
`floor((L * 1e-3 / SPEED_OF_LIGHT) / time_resolution)`. -/
theorem C7_single_photon_bin (E : Externals) (L : ℕ) (row : PhotonRow) (tr : ℚ)
    (muMap : MuMap) (sddIdx : Option ℕ) (I : ℚ)
    (hcol : generate_intensity_column E { layers := L, rows := [row] } muMap sddIdx
      = .ok [I])
    (hI : 1 / 10 ^ 30 < I) :
    ∃ t, ToF.init E { layers := L, rows := [row] } tr muMap sddIdx (1 / 10 ^ 30) = .ok t ∧
      t.data = [(Int.floor (row.paths.sum * (1 / 1000) / SPEED_OF_LIGHT / tr), I)] ∧
      t.lower_bin_index = Int.floor (row.paths.sum * (1 / 1000) / SPEED_OF_LIGHT / tr) ∧
      t.upper_bin_index = Int.floor (row.paths.sum * (1 / 1000) / SPEED_OF_LIGHT / tr) ∧
      t.interpolation_needed = false ∧ I ≠ 0 := by
  have hraw : rawKeptBins E { layers := L, rows := [row] } tr muMap sddIdx (1 / 10 ^ 30)
      = .ok [(Int.floor (row.paths.sum * (1 / 1000) / SPEED_OF_LIGHT / tr), I)] := by
    have hI2 : ((10 : ℚ) ^ 30)⁻¹ < I := by simpa [one_div] using hI
    simp only [rawKeptBins, hcol, exceptBind_ok]
    simp [aggregateBins, insertAdd, hI2]
    rfl
  have hfill : fill_data_gaps E
      [(Int.floor (row.paths.sum * (1 / 1000) / SPEED_OF_LIGHT / tr), I)]
      (Int.floor (row.paths.sum * (1 / 1000) / SPEED_OF_LIGHT / tr))
      (Int.floor (row.paths.sum * (1 / 1000) / SPEED_OF_LIGHT / tr))
      = ([(Int.floor (row.paths.sum * (1 / 1000) / SPEED_OF_LIGHT / tr), I)], false) := by
    simp [fill_data_gaps]
  refine ⟨⟨tr, [(Int.floor (row.paths.sum * (1 / 1000) / SPEED_OF_LIGHT / tr), I)], false,
    Int.floor (row.paths.sum * (1 / 1000) / SPEED_OF_LIGHT / tr),
    Int.floor (row.paths.sum * (1 / 1000) / SPEED_OF_LIGHT / tr)⟩, ?_, rfl, rfl, rfl, rfl, ?_⟩
  · simp only [ToF.init, hraw, exceptBind_ok, List.getLast_singleton]
    rw [hfill]
    rfl
  · have h0 : (0 : ℚ) < 1 / 10 ^ 30 := by norm_num
    exact ne_of_gt (lt_trans h0 hI)

/-- C7 witness: one photon with 7 mm path at unit time resolution lands alone
in bin 0 with intensity 2 under `extDemo`. -/
theorem C7_single_photon_bin_witness :
    ∃ t, ToF.init extDemo singleTableDemo 1 muDemoToF none (1 / 10 ^ 30) = .ok t ∧
      t.data = [(Int.floor (((7 : ℚ)) * (1 / 1000) / SPEED_OF_LIGHT / 1), 2)] ∧
      t.lower_bin_index = Int.floor (((7 : ℚ)) * (1 / 1000) / SPEED_OF_LIGHT / 1) ∧
      t.upper_bin_index = Int.floor (((7 : ℚ)) * (1 / 1000) / SPEED_OF_LIGHT / 1) ∧
      t.interpolation_needed = false ∧ (2 : ℚ) ≠ 0 :=
  C7_single_photon_bin extDemo 1 { sdd := 1, paths := [7] } 1 muDemoToF none 2
    (by decide) (by decide)

/-- Every entry of an ordered insertion either carries the inserted bin or was
already present. -/
theorem mem_insertAdd (b : ℤ) (v : ℚ) (s : Series) (q : ℤ × ℚ)
    (h : q ∈ insertAdd b v s) : q.1 = b ∨ q ∈ s := by
  induction s with
  | nil =>
    simp [insertAdd] at h
    rw [h]
    left
    rfl
  | cons hd tl ih =>
    obtain ⟨k, w⟩ := hd
    by_cases h1 : b = k
    · subst h1
      simp only [insertAdd, if_pos rfl] at h
      rcases List.mem_cons.mp h with rfl | hm
      · left
        rfl
      · right
        exact List.mem_cons_of_mem _ hm
    · by_cases h2 : b < k
      · simp only [insertAdd, if_neg h1, if_pos h2] at h
        rcases List.mem_cons.mp h with rfl | hm
        · left
          rfl
        · right
          exact hm
      · simp only [insertAdd, if_neg h1, if_neg h2] at h
        rcases List.mem_cons.mp h with rfl | hm
        · right
          exact List.mem_cons_self _ _
        · rcases ih hm with hb | hmem
          · left
            exact hb
          · right
            exact List.mem_cons_of_mem _ hmem

/-- Ordered insertion preserves strictly increasing bin indices. -/
theorem insertAdd_pairwise (b : ℤ) (v : ℚ) (s : Series)
    (hs : s.Pairwise (fun p q => p.1 < q.1)) :
    (insertAdd b v s).Pairwise (fun p q => p.1 < q.1) := by
  induction s with
  | nil => simp [insertAdd]
  | cons hd tl ih =>
    obtain ⟨k, w⟩ := hd
    obtain ⟨hall, htl⟩ := List.pairwise_cons.mp hs
    by_cases h1 : b = k
    · subst h1
      simp only [insertAdd, if_pos rfl]
      exact List.pairwise_cons.mpr ⟨hall, htl⟩
    · by_cases h2 : b < k
      · simp only [insertAdd, if_neg h1, if_pos h2]
        refine List.pairwise_cons.mpr ⟨?_, List.pairwise_cons.mpr ⟨hall, htl⟩⟩
        intro q hq
        rcases List.mem_cons.mp hq with rfl | hq2
        · exact h2
        · exact lt_trans h2 (hall q hq2)
      · have h3 : k < b := by omega
        simp only [insertAdd, if_neg h1, if_neg h2]
        refine List.pairwise_cons.mpr ⟨?_, ih htl⟩
        intro q hq
        rcases mem_insertAdd b v tl q hq with hqb | hqm
        · rw [hqb]
          exact h3
        · exact hall q hqm

/-- The groupby aggregation has strictly increasing bin indices. -/
theorem aggregateBins_pairwise (l : List (ℤ × ℚ)) :
    (aggregateBins l).Pairwise (fun p q => p.1 < q.1) := by
  suffices h : ∀ acc : Series, acc.Pairwise (fun p q => p.1 < q.1) →
      (l.foldl (fun acc p => insertAdd p.1 p.2 acc) acc).Pairwise (fun p q => p.1 < q.1) by
    exact h [] List.Pairwise.nil
  induction l with
  | nil => exact fun acc hacc => hacc
  | cons p tl ih =>
    intro acc hacc
    rw [List.foldl_cons]
    exact ih _ (insertAdd_pairwise p.1 p.2 acc hacc)

/-- Dropping a non-matching head does not change a lookup. -/
theorem sLookup_cons_ne (p : ℤ × ℚ) (rest : Series) (b : ℤ) (h : p.1 ≠ b) :
    sLookup (p :: rest) b = sLookup rest b := by
  simp [sLookup, h]

/-- In a strictly sorted series the head index bounds the last index. -/
theorem sorted_head_le_last (s : Series) (p q : ℤ × ℚ)
    (hs : s.Pairwise (fun a b => a.1 < b.1)) (hh : s.head? = some p)
    (hl : s.getLast? = some q) : p.1 ≤ q.1 := by
  cases s with
  | nil => cases hh
  | cons hd tl =>
    injection hh with hh
    subst hh
    obtain ⟨hne0, heq⟩ := List.mem_getLast?_eq_getLast hl
    rcases List.mem_cons.mp (heq ▸ List.getLast_mem hne0) with he | hm
    · rw [he]
    · exact le_of_lt ((List.pairwise_cons.mp hs).1 q hm)

/-- A strictly sorted integer-indexed series fits inside its index span. -/
theorem sorted_length_le (s : Series) (q : ℤ × ℚ) :
    ∀ p : ℤ × ℚ, s.Pairwise (fun a b => a.1 < b.1) → s.head? = some p →
      s.getLast? = some q → (s.length : ℤ) ≤ q.1 - p.1 + 1 := by
  induction s with
  | nil => intro p hs hh hl; cases hh
  | cons hd tl ih =>
    intro p hs hh hl
    injection hh with hh
    subst hh
    cases tl with
    | nil =>
      simp only [List.getLast?_singleton, Option.some.injEq] at hl
      subst hl
      simp
    | cons hd2 tl2 =>
      rw [List.getLast?_cons_cons] at hl
      obtain ⟨hall, htl⟩ := List.pairwise_cons.mp hs
      have h1 : hd.1 < hd2.1 := hall hd2 (List.mem_cons_self hd2 tl2)
      have h2 := ih hd2 htl rfl hl
      simp only [List.length_cons] at h2 ⊢
      omega

/-- A strictly sorted series whose length is at least its index span contains
every index between its head and last bins. -/
theorem sorted_cover (s : Series) (q : ℤ × ℚ) :
    ∀ p : ℤ × ℚ, s.Pairwise (fun a b => a.1 < b.1) → s.head? = some p →
      s.getLast? = some q → q.1 - p.1 + 1 ≤ (s.length : ℤ) →
      ∀ b : ℤ, p.1 ≤ b → b ≤ q.1 → (sLookup s b).isSome = true := by
  induction s with
  | nil => intro p hs hh hl hlen; cases hh
  | cons hd tl ih =>
    intro p hs hh hl hlen b hb1 hb2
    injection hh with hh
    subst hh
    by_cases hbp : hd.1 = b
    · simp [sLookup, hbp]
    · cases tl with
      | nil =>
        simp only [List.getLast?_singleton, Option.some.injEq] at hl
        subst hl
        omega
      | cons hd2 tl2 =>
        rw [List.getLast?_cons_cons] at hl
        obtain ⟨hall, htl⟩ := List.pairwise_cons.mp hs
        have h1 : hd.1 < hd2.1 := hall hd2 (List.mem_cons_self hd2 tl2)
        have h2 := sorted_length_le (hd2 :: tl2) q hd2 htl rfl hl
        simp only [List.length_cons] at h2 hlen
        have hble : hd2.1 ≤ b := by omega
        have hlen2 : q.1 - hd2.1 + 1 ≤ ((hd2 :: tl2).length : ℤ) := by
          simp only [List.length_cons]
          omega
        rw [sLookup_cons_ne hd (hd2 :: tl2) b hbp]
        exact ih hd2 htl rfl hl hlen2 b hble hb2

/-- Membership in the reindexed contiguous range. -/
theorem mem_range_shift (lower : ℤ) (n : ℕ) (b : ℤ) :
    b ∈ (List.range n).map (fun i : ℕ => lower + (i : ℤ)) ↔ lower ≤ b ∧ b < lower + n := by
  constructor
  · intro h
    obtain ⟨i, hi, heq⟩ := List.mem_map.mp h
    rw [List.mem_range] at hi
    subst heq
    have h1 : (i : ℤ) < (n : ℤ) := by exact_mod_cast hi
    have h0 : (0 : ℤ) ≤ (i : ℤ) := Int.natCast_nonneg i
    omega
  · intro h
    refine List.mem_map.mpr ⟨(b - lower).toNat, ?_, ?_⟩
    · rw [List.mem_range]
      omega
    · show lower + ((b - lower).toNat : ℤ) = b
      rw [Int.toNat_of_nonneg (by omega)]
      omega

/-- Lookup succeeds at every key of a key-to-pair map. -/
theorem sLookup_map_pair (l : List ℤ) (g : ℤ → ℚ) (b : ℤ) (h : b ∈ l) :
    (sLookup (l.map (fun i => (i, g i))) b).isSome = true := by
  induction l with
  | nil => cases h
  | cons x xs ih =>
    by_cases hx : x = b
    · simp [sLookup, hx]
    · rcases List.mem_cons.mp h with rfl | hm
      · exact absurd rfl hx
      · simp only [List.map_cons, sLookup, if_neg hx]
        exact ih hm


/-- C4: every distribution built from raw photon data has an entry at every
integer bin of `[lower_bin_index, upper_bin_index]`, and its
`interpolation_needed` flag is true exactly when the raw aggregation (after
dropping bins at or below the cutoff) produced fewer bins than the width of
that range. -/
theorem C4_gap_fill_invariant (E : Externals) (tbl : PhotonTable) (tr : ℚ)
    (muMap : MuMap) (sddIdx : Option ℕ) (cutoff : ℚ) (kept : Series) (t : ToF)
    (hraw : rawKeptBins E tbl tr muMap sddIdx cutoff = .ok kept)
    (hinit : ToF.init E tbl tr muMap sddIdx cutoff = .ok t) :
    (∀ b : ℤ, t.lower_bin_index ≤ b → b ≤ t.upper_bin_index →
      (sLookup t.data b).isSome = true) ∧
    (t.interpolation_needed = true ↔
      (kept.length : ℤ) < t.upper_bin_index - t.lower_bin_index + 1) := by
  obtain ⟨col, hcol⟩ : ∃ col, generate_intensity_column E tbl muMap sddIdx = .ok col := by
    cases hcol : generate_intensity_column E tbl muMap sddIdx with
    | error e =>
      simp only [rawKeptBins, hcol, exceptBind_err] at hraw
      exact Except.noConfusion hraw
    | ok col => exact ⟨col, rfl⟩
  simp only [rawKeptBins, hcol, exceptBind_ok] at hraw
  injection hraw with hraw
  have hsorted : kept.Pairwise (fun a b => a.1 < b.1) :=
    hraw ▸ List.Pairwise.sublist (List.filter_sublist _) (aggregateBins_pairwise _)
  simp only [ToF.init, rawKeptBins, hcol, exceptBind_ok] at hinit
  rw [hraw] at hinit
  cases kept with
  | nil => simp at hinit
  | cons p rest =>
    have ht : ({ time_resolution := tr
                 data := (fill_data_gaps E (p :: rest) p.1
                   ((p :: rest).getLast (List.cons_ne_nil p rest)).1).1
                 interpolation_needed := (fill_data_gaps E (p :: rest) p.1
                   ((p :: rest).getLast (List.cons_ne_nil p rest)).1).2
                 lower_bin_index := p.1
                 upper_bin_index := ((p :: rest).getLast (List.cons_ne_nil p rest)).1 } : ToF)
        = t := Except.ok.inj hinit
    subst ht
    dsimp only
    have hlast : (p :: rest).getLast? =
        some ((p :: rest).getLast (List.cons_ne_nil p rest)) :=
      List.getLast?_eq_getLast _ _
    have hple : p.1 ≤ ((p :: rest).getLast (List.cons_ne_nil p rest)).1 :=
      sorted_head_le_last (p :: rest) p _ hsorted rfl hlast
    by_cases hfill : ((p :: rest).length : ℤ) <
        ((p :: rest).getLast (List.cons_ne_nil p rest)).1 - p.1 + 1
    · constructor
      · intro b hb1 hb2
        simp only [fill_data_gaps, hfill, if_true]
        apply sLookup_map_pair
        rw [mem_range_shift]
        refine ⟨hb1, ?_⟩
        have htn := Int.toNat_of_nonneg
          (show (0 : ℤ) ≤ ((p :: rest).getLast (List.cons_ne_nil p rest)).1 - p.1 + 1 by omega)
        omega
      · simp only [fill_data_gaps, hfill, if_true]
    · constructor
      · intro b hb1 hb2
        simp only [fill_data_gaps, hfill, if_false]
        exact sorted_cover (p :: rest) _ p hsorted rfl hlast (by omega) b hb1 hb2
      · simp only [fill_data_gaps, hfill, if_false]
        simp

/-- C4 witness: the two-photon table with a missing middle bin is fully
populated after construction and reports that interpolation was needed. -/
theorem C4_gap_fill_invariant_witness :
    ((sLookup tofDemo.data 1).isSome = true) ∧
    (tofDemo.interpolation_needed = true ↔
      (([((0 : ℤ), (2 : ℚ)), (2, 2)].length : ℤ)
        < tofDemo.upper_bin_index - tofDemo.lower_bin_index + 1)) :=
  ⟨(C4_gap_fill_invariant extDemo gapTableDemo trDemo muDemoToF none (1 / 10 ^ 30)
      [(0, 2), (2, 2)] tofDemo (by decide) (by decide)).1 1 (by decide) (by decide),
   (C4_gap_fill_invariant extDemo gapTableDemo trDemo muDemoToF none (1 / 10 ^ 30)
      [(0, 2), (2, 2)] tofDemo (by decide) (by decide)).2⟩
